import Mathlib

/-!
Peak localisation in a sampled signal (`arious4.cpp`).

A shallow embedding of the routines of `src/arious4.cpp` and theorems about them.

Modelling conventions.

* `std::vector<int>` is a `List Int`; the predicate `IsIntVector` says that every sample is a
  32-bit `int` and that the vector is short enough for an `int` index to address it.
* Indices are `int` in the source and `Int` here.  A read `signalData[i]` goes through `readAt`,
  which yields the fault `outOfBounds` when `i` is negative or not below the size (in C++ the
  read is undefined behaviour).
* The product `2 * errorRange` of `middleOfSquareWave`, whose factor is a parameter, is an `int`
  product: its exact value reduced to 32 bits in two's complement (`wrapInt`).  The other index
  computations (an index plus or minus 1 or the constant 3, the difference of two indices and
  its half) are exact: they stay within `int` for every vector of at most `INT_MAX - 3` samples.
* `throw std::runtime_error(...)` is a fault carrying the kind of the message.
* `double` is the field `ℚ`: arithmetic is exact.  A division by zero, whose `double` result is
  not a finite number, is the fault `nonFinite`.
* Loops whose trip count is not fixed are recursive functions with fuel, called with the fuel the
  loop can need at most; running out of fuel is the fault `outOfFuel`.
-/

namespace Arious

/-- What a call can end in instead of returning a value. -/
inductive Fault
  /-- `throw std::runtime_error("Signal data is too small to determine the peak")` -/
  | tooSmall
  /-- `throw std::runtime_error("Square top is too large, larger than permits")` -/
  | squareTopTooLarge
  /-- A read `signalData[i]` with `i` outside `[0, size)`. -/
  | outOfBounds
  /-- The quotient `-b / (2 * a)` with `a = 0`: not a finite `double`. -/
  | nonFinite
  /-- The fuel of a loop ran out. -/
  | outOfFuel
  deriving DecidableEq, Repr

/-- The value of `std::numeric_limits<int>::min()`. -/
def INT_MIN : Int := -2147483648

/-- The value of `std::numeric_limits<int>::max()`. -/
def INT_MAX : Int := 2147483647

/-- The class `Point`: an index and a value. -/
structure Point where
  index : Int
  value : Int
  deriving DecidableEq, Repr

/-- The constant `errorRange` of `findPeakPosition`. -/
def errorRange : Int := 3

/-- A vector of `int` that an `int` index can address. -/
def IsIntVector (signalData : List Int) : Prop :=
  (signalData.length : Int) ≤ INT_MAX ∧ ∀ x ∈ signalData, INT_MIN ≤ x ∧ x ≤ INT_MAX

instance (signalData : List Int) : Decidable (IsIntVector signalData) := by
  unfold IsIntVector; infer_instance

/-- The read `signalData[i]` for an `int` index `i`. -/
def readAt (signalData : List Int) (i : Int) : Except Fault Int :=
  if 0 ≤ i then
    match signalData[i.toNat]? with
    | some v => .ok v
    | none => .error .outOfBounds
  else .error .outOfBounds

/-- The `int` that a 32-bit computation yields when its exact result is `x`: `x` reduced modulo
`2 ^ 32` into the range `INT_MIN..INT_MAX`. -/
def wrapInt (x : Int) : Int := (x + 2147483648) % 4294967296 - 2147483648

/-- The `while` loop of `middleOfSquareWave`, from the current `p`; it returns the final `p`. -/
def middleOfSquareWaveLoop (maxIndex : Int) (signalData : List Int) (errorRange : Int) :
    Nat → Int → Except Fault Int
  | 0, p => if 0 ≤ p then .error .outOfFuel else .ok p
  | fuel + 1, p =>
    if 0 ≤ p then do
      let x ← readAt signalData p
      let m ← readAt signalData maxIndex
      if x = m then
        if maxIndex - p ≥ wrapInt (2 * errorRange) then .error .squareTopTooLarge
        else middleOfSquareWaveLoop maxIndex signalData errorRange fuel (p - 1)
      else .ok p
    else .ok p

/-- The function `middleOfSquareWave`.  `p` starts at `maxIndex` and goes down by one in each
iteration until it is negative, so `maxIndex + 1` iterations are the most there can be. -/
def middleOfSquareWave (maxIndex : Int) (signalData : List Int) (errorRange : Int) :
    Except Fault Int := do
  let p ← middleOfSquareWaveLoop maxIndex signalData errorRange (maxIndex + 1).toNat maxIndex
  .ok ((maxIndex - p).tdiv 2 + p)

/-- The `while (p <= end)` loop of `findMaxPeakIfExistsFromTo`, from the current `p` and the
current `(peakIndex, peakValue)`; the vector is seen through its read operation `rd`. -/
def findMaxPeakLoop (rd : Int → Except Fault Int) (end_ : Int) :
    Nat → Int → Point → Except Fault Point
  | 0, p, peak => if p ≤ end_ then .error .outOfFuel else .ok peak
  | fuel + 1, p, peak =>
    if p ≤ end_ then do
      let x ← rd p
      findMaxPeakLoop rd end_ fuel (p + 1) (if x > peak.value then ⟨p, x⟩ else peak)
    else .ok peak

/-- The body of `findMaxPeakIfExistsFromTo` over a vector given by its size and its read
operation.  The loop runs `end - start + 1` times at most.  In `peakIndex < signalData.size() - 1`
the `int` is converted to the unsigned size type, so a negative `peakIndex` is not below the
bound. -/
def findMaxPeakIfExistsFromToOn (size : Nat) (rd : Int → Except Fault Int) (start end_ : Int) :
    Except Fault Point :=
  if start ≥ size ∨ start < 0 ∨ end_ ≥ size ∨ end_ < 0 then
    .ok ⟨-1, INT_MIN⟩
  else do
    let peak ← findMaxPeakLoop rd end_ (end_ + 1 - start).toNat start ⟨-1, INT_MIN⟩
    let left ← if peak.index - 1 ≥ 0 then rd (peak.index - 1) else .ok INT_MIN
    let right ←
      if 0 ≤ peak.index ∧ peak.index < (size : Int) - 1 then rd (peak.index + 1) else .ok INT_MIN
    if left < peak.value ∧ peak.value > right then .ok peak else .ok ⟨-1, INT_MIN⟩

/-- The function `findMaxPeakIfExistsFromTo`. -/
def findMaxPeakIfExistsFromTo (start end_ : Int) (signalData : List Int) : Except Fault Point :=
  findMaxPeakIfExistsFromToOn signalData.length (readAt signalData) start end_

/-- The function `simpleInterpolation`, in exact arithmetic. -/
def simpleInterpolation (leftIndex centerIndex rightIndex : Int) (signalData : List Int) :
    Except Fault ℚ := do
  let v0 ← readAt signalData leftIndex
  let v1 ← readAt signalData centerIndex
  let v2 ← readAt signalData rightIndex
  let y0 : ℚ := v0
  let y1 : ℚ := v1
  let y2 : ℚ := v2
  let c : ℚ := y1
  let b : ℚ := (y2 - y0) / 2
  let a : ℚ := y0 - c + b
  if 2 * a = 0 then .error .nonFinite else .ok (centerIndex + (-b / (2 * a)))

/-- The `for` loop of `findPeakPosition` over the samples not yet visited, `index` being the
index of the first of them and `maxPeakPoint` the point recorded so far. -/
def globalScan : List Int → Int → Point → Point
  | [], _, maxPeakPoint => maxPeakPoint
  | x :: rest, index, maxPeakPoint =>
    globalScan rest (index + 1) (if x ≥ maxPeakPoint.value then ⟨index, x⟩ else maxPeakPoint)

/-- The point `maxPeakPoint` of `findPeakPosition` after the `for` loop. -/
def globalMaxPoint (signalData : List Int) : Point :=
  globalScan signalData 0 ⟨0, INT_MIN⟩

/-- The function `findPeakPosition`. -/
def findPeakPosition (signalData : List Int) : Except Fault ℚ :=
  if signalData.length < 3 then .error .tooSmall
  else
    let maxPeakPoint := globalMaxPoint signalData
    do
      let before ← readAt signalData (maxPeakPoint.index - 1)
      if before = maxPeakPoint.value then do
        let middle ← middleOfSquareWave maxPeakPoint.index signalData errorRange
        .ok (middle : ℚ)
      else if maxPeakPoint.index = 0 ∨ maxPeakPoint.index = (signalData.length : Int) - 1 then
        .ok (maxPeakPoint.index : ℚ)
      else do
        let leftPeakPoint ←
          findMaxPeakIfExistsFromTo (maxPeakPoint.index - errorRange) (maxPeakPoint.index - 1)
            signalData
        let rightPeakPoint ←
          findMaxPeakIfExistsFromTo (maxPeakPoint.index + 1) (maxPeakPoint.index + errorRange)
            signalData
        let noAbnormality : Bool := leftPeakPoint.index = -1 ∧ rightPeakPoint.index = -1
        let sameValueAbnormality : Bool :=
          leftPeakPoint.index ≠ -1 ∧ rightPeakPoint.index ≠ -1 ∧
            leftPeakPoint.value = rightPeakPoint.value
        if noAbnormality then
          simpleInterpolation (maxPeakPoint.index - 1) maxPeakPoint.index (maxPeakPoint.index + 1)
            signalData
        else if sameValueAbnormality then
          .ok (maxPeakPoint.index : ℚ)
        else
          let leftIndex :=
            if leftPeakPoint.value > rightPeakPoint.value then leftPeakPoint.index
            else maxPeakPoint.index - 1
          let rightIndex :=
            if leftPeakPoint.value > rightPeakPoint.value then maxPeakPoint.index + 1
            else rightPeakPoint.index
          simpleInterpolation leftIndex maxPeakPoint.index rightIndex signalData


/-- The `return` statement at which `findPeakPosition` ends: a value returned as it is, or the
call of `simpleInterpolation` whose result is returned, with the arguments of the call. -/
inductive Exit
  | value (position : ℚ)
  | interpolation (leftIndex centerIndex rightIndex : Int)

/-- The function `findPeakPosition` up to its `return` statement: the same control flow, with
the call of `simpleInterpolation`, where one is reached, left unevaluated. -/
def findPeakPositionExit (signalData : List Int) : Except Fault Exit :=
  if signalData.length < 3 then .error .tooSmall
  else
    let maxPeakPoint := globalMaxPoint signalData
    do
      let before ← readAt signalData (maxPeakPoint.index - 1)
      if before = maxPeakPoint.value then do
        let middle ← middleOfSquareWave maxPeakPoint.index signalData errorRange
        .ok (.value (middle : ℚ))
      else if maxPeakPoint.index = 0 ∨ maxPeakPoint.index = (signalData.length : Int) - 1 then
        .ok (.value (maxPeakPoint.index : ℚ))
      else do
        let leftPeakPoint ←
          findMaxPeakIfExistsFromTo (maxPeakPoint.index - errorRange) (maxPeakPoint.index - 1)
            signalData
        let rightPeakPoint ←
          findMaxPeakIfExistsFromTo (maxPeakPoint.index + 1) (maxPeakPoint.index + errorRange)
            signalData
        let noAbnormality : Bool := leftPeakPoint.index = -1 ∧ rightPeakPoint.index = -1
        let sameValueAbnormality : Bool :=
          leftPeakPoint.index ≠ -1 ∧ rightPeakPoint.index ≠ -1 ∧
            leftPeakPoint.value = rightPeakPoint.value
        if noAbnormality then
          .ok (.interpolation (maxPeakPoint.index - 1) maxPeakPoint.index (maxPeakPoint.index + 1))
        else if sameValueAbnormality then
          .ok (.value (maxPeakPoint.index : ℚ))
        else
          let leftIndex :=
            if leftPeakPoint.value > rightPeakPoint.value then leftPeakPoint.index
            else maxPeakPoint.index - 1
          let rightIndex :=
            if leftPeakPoint.value > rightPeakPoint.value then maxPeakPoint.index + 1
            else rightPeakPoint.index
          .ok (.interpolation leftIndex maxPeakPoint.index rightIndex)

/-- The evaluation of the `return` statement reached. -/
def Exit.run (signalData : List Int) : Exit → Except Fault ℚ
  | .value position => .ok position
  | .interpolation leftIndex centerIndex rightIndex =>
    simpleInterpolation leftIndex centerIndex rightIndex signalData

/-- The sample at index `i`; zero outside the vector, where it is not used. -/
def sample (signalData : List Int) (i : Nat) : Int := signalData.getD i 0

/-- The index `g` is the last one at which the signal takes its maximum. -/
def IsLastMax (signalData : List Int) (g : Nat) : Prop :=
  g < signalData.length ∧
    (∀ i < signalData.length, sample signalData i ≤ sample signalData g) ∧
    ∀ i < signalData.length, g < i → sample signalData i < sample signalData g

instance (signalData : List Int) (g : Nat) : Decidable (IsLastMax signalData g) := by
  unfold IsLastMax; infer_instance

/-- The samples at `leftEdge, …, g` all equal the sample at `g`, and the sample before
`leftEdge`, when there is one, differs: `leftEdge..g` is the maximal run of equal samples that
ends at `g`. -/
def IsRunEndingAt (signalData : List Int) (leftEdge g : Nat) : Prop :=
  leftEdge ≤ g ∧ g < signalData.length ∧
    (∀ i < signalData.length, leftEdge ≤ i → i ≤ g → sample signalData i = sample signalData g) ∧
    (leftEdge = 0 ∨ sample signalData (leftEdge - 1) ≠ sample signalData g)

instance (signalData : List Int) (leftEdge g : Nat) :
    Decidable (IsRunEndingAt signalData leftEdge g) := by
  unfold IsRunEndingAt; infer_instance

/-- A peak: a sample strictly greater than both of its immediate neighbours. -/
def IsPeak (signalData : List Int) (i : Nat) : Prop :=
  0 < i ∧ i + 1 < signalData.length ∧
    sample signalData (i - 1) < sample signalData i ∧
    sample signalData (i + 1) < sample signalData i

instance (signalData : List Int) (i : Nat) : Decidable (IsPeak signalData i) := by
  unfold IsPeak; infer_instance

/-! ## Reads -/

theorem ok_bind {α β : Type} (a : α) (f : α → Except Fault β) : (Except.ok a >>= f) = f a := rfl

theorem error_bind {α β : Type} (e : Fault) (f : α → Except Fault β) :
    (Except.error e >>= f) = Except.error e := rfl

theorem readAt_of_lt (s : List Int) (i : Nat) (h : i < s.length) :
    readAt s (i : Int) = .ok (sample s i) := by
  simp [readAt, sample, List.getD, List.getElem?_eq_getElem h]

theorem readAt_of_neg (s : List Int) (i : Int) (h : i < 0) :
    readAt s i = .error .outOfBounds := by
  simp [readAt, not_le.mpr h]

theorem readAt_of_ge (s : List Int) (i : Nat) (h : s.length ≤ i) :
    readAt s (i : Int) = .error .outOfBounds := by
  simp [readAt, List.getElem?_eq_none h]

theorem sample_cons_succ (x : Int) (s : List Int) (i : Nat) :
    sample (x :: s) (i + 1) = sample s i := by
  simp [sample]

theorem sample_mem (s : List Int) (i : Nat) (h : i < s.length) : sample s i ∈ s := by
  simp [sample, List.getD, List.getElem?_eq_getElem h]

/-! ## The global scan -/

theorem globalScan_spec (l : List Int) (k : Nat) (pt : Point) :
    (∀ x ∈ l, x ≤ (globalScan l k pt).value) ∧ pt.value ≤ (globalScan l k pt).value ∧
      ((globalScan l k pt = pt ∧ ∀ x ∈ l, x < pt.value) ∨
        ∃ j, j < l.length ∧ globalScan l k pt = ⟨(k + j : Nat), sample l j⟩ ∧
          ∀ i < l.length, j < i → sample l i < sample l j) := by
  induction l generalizing k pt with
  | nil => simp [globalScan]
  | cons x rest ih =>
    obtain ⟨h1, h2, h3⟩ := ih (k + 1) (if x ≥ pt.value then ⟨(k : Int), x⟩ else pt)
    have hcast : ((k : Int) + 1) = ((k + 1 : Nat) : Int) := by push_cast; rfl
    simp only [globalScan, hcast]
    by_cases hx : x ≥ pt.value
    · simp only [hx, if_true] at h1 h2 h3 ⊢
      refine ⟨?_, le_trans hx h2, Or.inr ?_⟩
      · intro y hy
        rcases List.mem_cons.mp hy with rfl | hy
        · exact h2
        · exact h1 y hy
      · rcases h3 with ⟨heq, hlt⟩ | ⟨j, hj, heq, hlt⟩
        · refine ⟨0, by simp, by simpa [sample] using heq, ?_⟩
          intro i hi h0
          obtain ⟨i, rfl⟩ := Nat.exists_eq_succ_of_ne_zero (Nat.pos_iff_ne_zero.mp h0)
          simp only [sample_cons_succ]
          simpa [sample] using hlt _ (sample_mem rest i (by simpa using hi))
        · refine ⟨j + 1, by simpa using hj, ?_, ?_⟩
          · rw [heq, sample_cons_succ]; congr 1; push_cast; ring
          · intro i hi hji
            obtain ⟨i, rfl⟩ := Nat.exists_eq_succ_of_ne_zero (by omega : i ≠ 0)
            simp only [sample_cons_succ]
            exact hlt i (by simpa using hi) (by omega)
    · simp only [hx, if_false] at h1 h2 h3 ⊢
      have hx' : x < pt.value := not_le.mp hx
      refine ⟨?_, h2, ?_⟩
      · intro y hy
        rcases List.mem_cons.mp hy with rfl | hy
        · exact le_trans (le_of_lt hx') h2
        · exact h1 y hy
      · rcases h3 with ⟨heq, hlt⟩ | ⟨j, hj, heq, hlt⟩
        · refine Or.inl ⟨heq, ?_⟩
          intro y hy
          rcases List.mem_cons.mp hy with rfl | hy
          · exact hx'
          · exact hlt y hy
        · refine Or.inr ⟨j + 1, by simpa using hj, ?_, ?_⟩
          · rw [heq, sample_cons_succ]; congr 1; push_cast; ring
          · intro i hi hji
            obtain ⟨i, rfl⟩ := Nat.exists_eq_succ_of_ne_zero (by omega : i ≠ 0)
            simp only [sample_cons_succ]
            exact hlt i (by simpa using hi) (by omega)

theorem globalMaxPoint_spec (s : List Int) (hne : s ≠ []) (hs : IsIntVector s) :
    ∃ g, IsLastMax s g ∧ globalMaxPoint s = ⟨(g : Nat), sample s g⟩ := by
  obtain ⟨h1, -, h3⟩ := globalScan_spec s 0 ⟨0, INT_MIN⟩
  simp only [Nat.cast_zero, Nat.zero_add] at h1 h3
  rcases h3 with ⟨-, hlt⟩ | ⟨j, hj, heq, hlt⟩
  · obtain ⟨x, rest, rfl⟩ := List.exists_cons_of_ne_nil hne
    have hx := hlt x (List.mem_cons_self _ _)
    have hx' := (hs.2 x (List.mem_cons_self _ _)).1
    simp only at hx
    omega
  · refine ⟨j, ⟨hj, ?_, hlt⟩, heq⟩
    intro i hi
    have := h1 (sample s i) (sample_mem s i hi)
    rwa [heq] at this

theorem IsLastMax.unique {s : List Int} {g g' : Nat} (h : IsLastMax s g) (h' : IsLastMax s g') :
    g = g' := by
  obtain ⟨hg, hle, hlt⟩ := h
  obtain ⟨hg', hle', hlt'⟩ := h'
  rcases Nat.lt_trichotomy g g' with hlt1 | heq | hgt
  · have := hlt g' hg' hlt1
    have := hle' g hg
    omega
  · exact heq
  · have := hlt' g hg hgt
    have := hle g' hg'
    omega

theorem globalMaxPoint_of_isLastMax {s : List Int} {g : Nat} (hs : IsIntVector s)
    (hg : IsLastMax s g) : globalMaxPoint s = ⟨(g : Nat), sample s g⟩ := by
  have hne : s ≠ [] := by
    rintro rfl
    exact absurd hg.1 (by simp)
  obtain ⟨g', hg', heq⟩ := globalMaxPoint_spec s hne hs
  rw [heq, hg.unique hg']

/-! ## The branches of `findPeakPosition` -/

theorem findPeakPosition_flat {s : List Int} {g : Nat} (hlen : 3 ≤ s.length) (hs : IsIntVector s)
    (hg : IsLastMax s g) (hpos : 1 ≤ g) (hflat : sample s (g - 1) = sample s g) :
    findPeakPosition s =
      (middleOfSquareWave g s errorRange).map (fun middle : Int => (middle : ℚ)) := by
  have hr : readAt s ((g : Int) - 1) = .ok (sample s (g - 1)) := by
    have := readAt_of_lt s (g - 1) (by have := hg.1; omega)
    rwa [Nat.cast_sub hpos, Nat.cast_one] at this
  unfold findPeakPosition
  rw [if_neg (by omega)]
  simp only [globalMaxPoint_of_isLastMax hs hg, hr, hflat, ok_bind, if_true]
  cases middleOfSquareWave g s errorRange <;> rfl

theorem findPeakPosition_not_flat {s : List Int} {g : Nat} (hlen : 3 ≤ s.length)
    (hs : IsIntVector s) (hg : IsLastMax s g) (hpos : 1 ≤ g)
    (hflat : sample s (g - 1) ≠ sample s g) :
    findPeakPosition s =
      if (g : Int) = 0 ∨ (g : Int) = (s.length : Int) - 1 then .ok ((g : Int) : ℚ)
      else (do
        let leftPeakPoint ← findMaxPeakIfExistsFromTo ((g : Int) - errorRange) ((g : Int) - 1) s
        let rightPeakPoint ← findMaxPeakIfExistsFromTo ((g : Int) + 1) ((g : Int) + errorRange) s
        if leftPeakPoint.index = -1 ∧ rightPeakPoint.index = -1 then
          simpleInterpolation ((g : Int) - 1) g ((g : Int) + 1) s
        else if leftPeakPoint.index ≠ -1 ∧ rightPeakPoint.index ≠ -1 ∧
            leftPeakPoint.value = rightPeakPoint.value then
          .ok ((g : Int) : ℚ)
        else
          simpleInterpolation
            (if leftPeakPoint.value > rightPeakPoint.value then leftPeakPoint.index
              else (g : Int) - 1)
            g
            (if leftPeakPoint.value > rightPeakPoint.value then (g : Int) + 1
              else rightPeakPoint.index)
            s) := by
  have hr : readAt s ((g : Int) - 1) = .ok (sample s (g - 1)) := by
    have := readAt_of_lt s (g - 1) (by have := hg.1; omega)
    rwa [Nat.cast_sub hpos, Nat.cast_one] at this
  unfold findPeakPosition
  rw [if_neg (by omega)]
  simp only [globalMaxPoint_of_isLastMax hs hg, hr, ok_bind, if_neg hflat]
  split_ifs with h1
  · rfl
  · simp only [decide_eq_true_eq]

/-! ## The flat top -/

theorem middleOfSquareWaveLoop_exit {s : List Int} {e g : Nat} (E : Int)
    (hrun : IsRunEndingAt s e g) (fuel : Nat) (hfuel : e ≤ fuel) :
    middleOfSquareWaveLoop g s E fuel ((e : Int) - 1) = .ok ((e : Int) - 1) := by
  obtain ⟨heg, hg, -, hedge⟩ := hrun
  rcases Nat.eq_zero_or_pos e with rfl | hpos
  · cases fuel <;> simp [middleOfSquareWaveLoop]
  · obtain ⟨fuel, rfl⟩ := Nat.exists_eq_succ_of_ne_zero (by omega : fuel ≠ 0)
    have hne : sample s (e - 1) ≠ sample s g := by
      rcases hedge with h | h
      · omega
      · exact h
    have hr : readAt s ((e : Int) - 1) = .ok (sample s (e - 1)) := by
      have := readAt_of_lt s (e - 1) (by omega)
      rwa [Nat.cast_sub hpos, Nat.cast_one] at this
    have h0 : (0 : Int) ≤ (e : Int) - 1 := by omega
    simp only [middleOfSquareWaveLoop, if_pos h0, hr, readAt_of_lt s g hg, ok_bind, if_neg hne]

theorem wrapInt_of_int {x : Int} (hlo : INT_MIN ≤ x) (hhi : x ≤ INT_MAX) : wrapInt x = x := by
  unfold INT_MIN at hlo
  unfold INT_MAX at hhi
  unfold wrapInt
  omega

theorem middleOfSquareWaveLoop_run {s : List Int} {e g : Nat} (E : Int)
    (hrun : IsRunEndingAt s e g) (n fuel : Nat) (hn : e + n ≤ g) (hfuel : e + n + 1 ≤ fuel) :
    middleOfSquareWaveLoop g s E fuel ((e + n : Nat) : Int) =
      if wrapInt (2 * E) ≤ (g : Int) - (e : Int) then .error .squareTopTooLarge
      else .ok ((e : Int) - 1) := by
  induction n generalizing fuel with
  | zero =>
    obtain ⟨fuel, rfl⟩ := Nat.exists_eq_succ_of_ne_zero (by omega : fuel ≠ 0)
    have hg := hrun.2.1
    have h0 : (0 : Int) ≤ ((e + 0 : Nat) : Int) := by omega
    simp only [middleOfSquareWaveLoop, if_pos h0, readAt_of_lt s (e + 0) (by omega),
      readAt_of_lt s g hg, ok_bind, hrun.2.2.1 (e + 0) (by omega) (by omega) (by omega), if_true]
    by_cases hE : wrapInt (2 * E) ≤ (g : Int) - (e : Int)
    · rw [if_pos hE, if_pos (by simpa using hE)]
    · rw [if_neg hE, if_neg (by simpa using hE)]
      simpa using middleOfSquareWaveLoop_exit E hrun fuel (by omega)
  | succ n ih =>
    obtain ⟨fuel, rfl⟩ := Nat.exists_eq_succ_of_ne_zero (by omega : fuel ≠ 0)
    have hg := hrun.2.1
    have h0 : (0 : Int) ≤ ((e + (n + 1) : Nat) : Int) := by omega
    simp only [middleOfSquareWaveLoop, if_pos h0, readAt_of_lt s (e + (n + 1)) (by omega),
      readAt_of_lt s g hg, ok_bind,
      hrun.2.2.1 (e + (n + 1)) (by omega) (by omega) (by omega), if_true]
    have hstep : ((e + (n + 1) : Nat) : Int) - 1 = ((e + n : Nat) : Int) := by
      push_cast; ring
    rw [hstep, ih fuel (by omega) (by omega)]
    by_cases hE : (g : Int) - ((e + (n + 1) : Nat) : Int) ≥ wrapInt (2 * E)
    · rw [if_pos hE, if_pos (by push_cast at hE; omega)]
    · rw [if_neg hE]

theorem middleOfSquareWave_run {s : List Int} {e g : Nat} (E : Int)
    (hrun : IsRunEndingAt s e g) :
    middleOfSquareWave g s E =
      if wrapInt (2 * E) ≤ (g : Int) - (e : Int) then .error .squareTopTooLarge
      else .ok (((g : Int) - ((e : Int) - 1)).tdiv 2 + ((e : Int) - 1)) := by
  have hfuel : ((g : Int) + 1).toNat = g + 1 := by omega
  have hloop := middleOfSquareWaveLoop_run E hrun (g - e) (g + 1)
    (by have := hrun.1; omega) (by have := hrun.1; omega)
  have hp : ((e + (g - e) : Nat) : Int) = (g : Int) := by
    have := hrun.1
    omega
  rw [hp] at hloop
  unfold middleOfSquareWave
  rw [hfuel, hloop]
  split_ifs <;> rfl

/-! ## Interpolation -/

theorem simpleInterpolation_eq {s : List Int} {l c r : Nat} (hl : l < s.length)
    (hc : c < s.length) (hr : r < s.length)
    (hne : (sample s l : ℚ) - 2 * sample s c + sample s r ≠ 0) :
    simpleInterpolation l c r s =
      .ok ((c : ℚ) + ((sample s l : ℚ) - sample s r) /
        (2 * ((sample s l : ℚ) - 2 * sample s c + sample s r))) := by
  have h2a : 2 * ((sample s l : ℚ) - sample s c + ((sample s r : ℚ) - sample s l) / 2) =
      (sample s l : ℚ) - 2 * sample s c + sample s r := by ring
  unfold simpleInterpolation
  simp only [readAt_of_lt s l hl, readAt_of_lt s c hc, readAt_of_lt s r hr, ok_bind, h2a,
    if_neg hne]
  congr 1
  rw [Int.cast_natCast]
  congr 1
  field_simp

theorem vertex_offset_bounds {y0 y1 y2 : Int} (h0 : y0 < y1) (h2 : y2 < y1) :
    (y0 : ℚ) - 2 * y1 + y2 < 0 ∧
      -1 < ((y0 : ℚ) - y2) / (2 * ((y0 : ℚ) - 2 * y1 + y2)) ∧
      ((y0 : ℚ) - y2) / (2 * ((y0 : ℚ) - 2 * y1 + y2)) < 1 := by
  have h0' : (y0 : ℚ) < y1 := by exact_mod_cast h0
  have h2' : (y2 : ℚ) < y1 := by exact_mod_cast h2
  have hD : (y0 : ℚ) - 2 * y1 + y2 < 0 := by linarith
  have h2D : 2 * ((y0 : ℚ) - 2 * y1 + y2) < 0 := by linarith
  refine ⟨hD, ?_, ?_⟩
  · rw [lt_div_iff_of_neg h2D]; linarith
  · rw [div_lt_iff_of_neg h2D]; linarith

/-! ## The window scan -/

theorem findMaxPeakLoop_spec (s : List Int) (b : Nat) (hb : b < s.length) (n : Nat) :
    ∀ (p fuel : Nat) (peak : Point), p + n = b + 1 → n ≤ fuel →
      ∃ r, findMaxPeakLoop (readAt s) (b : Int) fuel (p : Int) peak = .ok r ∧
        ((r = peak ∧ ∀ k, p ≤ k → k ≤ b → sample s k ≤ peak.value) ∨
          ∃ m, p ≤ m ∧ m ≤ b ∧ r = ⟨(m : Nat), sample s m⟩ ∧ peak.value < sample s m ∧
            (∀ k, p ≤ k → k < m → sample s k < sample s m) ∧
            ∀ k, p ≤ k → k ≤ b → sample s k ≤ sample s m) := by
  induction n with
  | zero =>
    intro p fuel peak hp _
    have hgt : ¬ ((p : Int) ≤ (b : Int)) := by omega
    refine ⟨peak, ?_, Or.inl ⟨rfl, fun k h1 h2 => by omega⟩⟩
    cases fuel <;> simp only [findMaxPeakLoop, if_neg hgt]
  | succ n ih =>
    intro p fuel peak hp hfuel
    obtain ⟨fuel, rfl⟩ := Nat.exists_eq_succ_of_ne_zero (by omega : fuel ≠ 0)
    have hle : (p : Int) ≤ (b : Int) := by omega
    have hnext : (p : Int) + 1 = ((p + 1 : Nat) : Int) := by push_cast; rfl
    simp only [findMaxPeakLoop, if_pos hle, readAt_of_lt s p (by omega), ok_bind, hnext]
    by_cases hx : sample s p > peak.value
    · simp only [hx, if_true]
      obtain ⟨r, hr, hcase⟩ := ih (p + 1) fuel ⟨(p : Nat), sample s p⟩ (by omega) (by omega)
      refine ⟨r, hr, Or.inr ?_⟩
      rcases hcase with ⟨rfl, hall⟩ | ⟨m, hpm, hmb, rfl, hlt, hfirst, hall⟩
      · refine ⟨p, le_refl _, by omega, rfl, hx, fun k h1 h2 => by omega, ?_⟩
        intro k h1 h2
        rcases Nat.eq_or_lt_of_le h1 with rfl | h1
        · exact le_refl _
        · exact hall k h1 h2
      · simp only at hlt
        refine ⟨m, by omega, hmb, rfl, by omega, ?_, ?_⟩
        · intro k h1 h2
          rcases Nat.eq_or_lt_of_le h1 with rfl | h1
          · exact hlt
          · exact hfirst k h1 h2
        · intro k h1 h2
          rcases Nat.eq_or_lt_of_le h1 with rfl | h1
          · exact le_of_lt hlt
          · exact hall k h1 h2
    · simp only [hx, if_false]
      have hx' : sample s p ≤ peak.value := not_lt.mp hx
      obtain ⟨r, hr, hcase⟩ := ih (p + 1) fuel peak (by omega) (by omega)
      refine ⟨r, hr, ?_⟩
      rcases hcase with ⟨rfl, hall⟩ | ⟨m, hpm, hmb, rfl, hlt, hfirst, hall⟩
      · refine Or.inl ⟨rfl, ?_⟩
        intro k h1 h2
        rcases Nat.eq_or_lt_of_le h1 with rfl | h1
        · exact hx'
        · exact hall k h1 h2
      · refine Or.inr ⟨m, by omega, hmb, rfl, hlt, ?_, ?_⟩
        · intro k h1 h2
          rcases Nat.eq_or_lt_of_le h1 with rfl | h1
          · omega
          · exact hfirst k h1 h2
        · intro k h1 h2
          rcases Nat.eq_or_lt_of_le h1 with rfl | h1
          · omega
          · exact hall k h1 h2

/-- The loop of the window scan ends at the first index of the largest sample of the window. -/
theorem findMaxPeakLoop_first_max {s : List Int} {a m b : Nat} (ham : a ≤ m) (hmb : m ≤ b)
    (hb : b < s.length) (hmin : INT_MIN < sample s m)
    (hfirst : ∀ k, a ≤ k → k < m → sample s k < sample s m)
    (hall : ∀ k, a ≤ k → k ≤ b → sample s k ≤ sample s m) :
    findMaxPeakLoop (readAt s) (b : Int) ((b : Int) + 1 - (a : Int)).toNat (a : Int)
      ⟨-1, INT_MIN⟩ = .ok ⟨(m : Nat), sample s m⟩ := by
  have hfuel : ((b : Int) + 1 - (a : Int)).toNat = b + 1 - a := by omega
  obtain ⟨r, hr, hcase⟩ := findMaxPeakLoop_spec s b hb (b + 1 - a) a (b + 1 - a)
    ⟨-1, INT_MIN⟩ (by omega) (le_refl _)
  rw [hfuel, hr]
  rcases hcase with ⟨-, hall'⟩ | ⟨m', ham', hmb', rfl, -, hfirst', hall'⟩
  · have := hall' m ham hmb
    simp only at this
    omega
  · rcases Nat.lt_trichotomy m m' with h | rfl | h
    · have := hfirst' m ham h
      have := hall m' ham' hmb'
      omega
    · rfl
    · have := hfirst m' ham' h
      have := hall' m ham hmb
      omega

/-- The window scan over an in-bounds window whose first largest sample is at `m`: the point
`(m, signalData[m])` when that sample is above both neighbours, an absent neighbour counting as
`INT_MIN`, and the sentinel otherwise. -/
theorem findMaxPeakIfExistsFromTo_first_max {s : List Int} {a m b : Nat} (ham : a ≤ m)
    (hmb : m ≤ b) (hb : b < s.length) (hmin : INT_MIN < sample s m)
    (hfirst : ∀ k, a ≤ k → k < m → sample s k < sample s m)
    (hall : ∀ k, a ≤ k → k ≤ b → sample s k ≤ sample s m) :
    findMaxPeakIfExistsFromTo (a : Int) (b : Int) s =
      .ok (if (if 0 < m then sample s (m - 1) else INT_MIN) < sample s m ∧
          sample s m > (if m + 1 < s.length then sample s (m + 1) else INT_MIN)
        then ⟨(m : Nat), sample s m⟩ else ⟨-1, INT_MIN⟩) := by
  have hrange : ¬ ((a : Int) ≥ (s.length : Int) ∨ (a : Int) < 0 ∨ (b : Int) ≥ (s.length : Int) ∨
      (b : Int) < 0) := by omega
  unfold findMaxPeakIfExistsFromTo findMaxPeakIfExistsFromToOn
  rw [if_neg hrange, findMaxPeakLoop_first_max ham hmb hb hmin hfirst hall]
  simp only [ok_bind]
  have hr : ((m : Int) + 1) = ((m + 1 : Nat) : Int) := by omega
  by_cases h0 : 0 < m <;> by_cases h1 : m + 1 < s.length
  · have c0 : ((m : Nat) : Int) - 1 ≥ 0 := by omega
    have c1 : (0 : Int) ≤ ((m : Nat) : Int) ∧ ((m : Nat) : Int) < (s.length : Int) - 1 := by
      omega
    have hl' : ((m : Int) - 1) = ((m - 1 : Nat) : Int) := by omega
    simp only [if_pos c0, if_pos c1, if_pos h0, if_pos h1]
    simp only [hl', hr, readAt_of_lt s (m - 1) (by omega), readAt_of_lt s (m + 1) h1, ok_bind]
    split_ifs <;> rfl
  · have c0 : ((m : Nat) : Int) - 1 ≥ 0 := by omega
    have c1 : ¬ ((0 : Int) ≤ ((m : Nat) : Int) ∧ ((m : Nat) : Int) < (s.length : Int) - 1) := by
      omega
    have hl' : ((m : Int) - 1) = ((m - 1 : Nat) : Int) := by omega
    simp only [if_pos c0, if_neg c1, if_pos h0, if_neg h1]
    simp only [hl', readAt_of_lt s (m - 1) (by omega), ok_bind]
    split_ifs <;> rfl
  · have c0 : ¬ (((m : Nat) : Int) - 1 ≥ 0) := by omega
    have c1 : (0 : Int) ≤ ((m : Nat) : Int) ∧ ((m : Nat) : Int) < (s.length : Int) - 1 := by
      omega
    simp only [if_neg c0, if_pos c1, if_neg h0, if_pos h1]
    simp only [hr, readAt_of_lt s (m + 1) h1, ok_bind]
    split_ifs <;> rfl
  · have c0 : ¬ (((m : Nat) : Int) - 1 ≥ 0) := by omega
    have c1 : ¬ ((0 : Int) ≤ ((m : Nat) : Int) ∧ ((m : Nat) : Int) < (s.length : Int) - 1) := by
      omega
    simp only [if_neg c0, if_neg c1, if_neg h0, if_neg h1]
    split_ifs <;> rfl

/-- The window scan reports a peak that is the first largest sample of the window. -/
theorem findMaxPeakIfExistsFromTo_peak {s : List Int} {a m b : Nat} (hs : IsIntVector s)
    (ham : a ≤ m) (hmb : m ≤ b) (hb : b < s.length) (hpeak : IsPeak s m)
    (hfirst : ∀ k, a ≤ k → k < m → sample s k < sample s m)
    (hall : ∀ k, a ≤ k → k ≤ b → sample s k ≤ sample s m) :
    findMaxPeakIfExistsFromTo (a : Int) (b : Int) s = .ok ⟨(m : Nat), sample s m⟩ := by
  obtain ⟨hm0, hm1, hleft, hright⟩ := hpeak
  have hmin : INT_MIN < sample s m :=
    lt_of_le_of_lt (hs.2 _ (sample_mem s (m - 1) (by omega))).1 hleft
  rw [findMaxPeakIfExistsFromTo_first_max ham hmb hb hmin hfirst hall, if_pos hm0, if_pos hm1,
    if_pos ⟨hleft, hright⟩]

/-- The window scan reports nothing when the first largest sample of the window is not above
its left neighbour. -/
theorem findMaxPeakIfExistsFromTo_left_higher {s : List Int} {a m b : Nat} (ham : a ≤ m)
    (hmb : m ≤ b) (hb : b < s.length) (hmin : INT_MIN < sample s m) (hm0 : 0 < m)
    (hleft : sample s m ≤ sample s (m - 1))
    (hfirst : ∀ k, a ≤ k → k < m → sample s k < sample s m)
    (hall : ∀ k, a ≤ k → k ≤ b → sample s k ≤ sample s m) :
    findMaxPeakIfExistsFromTo (a : Int) (b : Int) s = .ok ⟨-1, INT_MIN⟩ := by
  rw [findMaxPeakIfExistsFromTo_first_max ham hmb hb hmin hfirst hall, if_pos hm0,
    if_neg (fun h => absurd h.1 (not_lt.mpr hleft))]

/-- The symmetric shape: both scans report a point, with the same value. -/
theorem findPeakPosition_of_equal_reports {s : List Int} {g : Nat} {L R : Point}
    (hlen : 3 ≤ s.length) (hs : IsIntVector s) (hg : IsLastMax s g) (hpos : 0 < g)
    (hint : g < s.length - 1) (hflat : sample s (g - 1) ≠ sample s g)
    (hL : findMaxPeakIfExistsFromTo ((g : Int) - 3) ((g : Int) - 1) s = .ok L)
    (hLi : L.index ≠ -1)
    (hR : findMaxPeakIfExistsFromTo ((g : Int) + 1) ((g : Int) + 3) s = .ok R)
    (hRi : R.index ≠ -1) (hval : L.value = R.value) :
    findPeakPosition s = .ok (g : ℚ) := by
  have hE : errorRange = 3 := rfl
  rw [findPeakPosition_not_flat hlen hs hg hpos hflat, if_neg (by omega), hE, hL, hR]
  simp only [ok_bind, hLi, hRi, hval, false_and, if_false, ne_eq, not_false_eq_true, and_self,
    if_true, Int.cast_natCast]

/-- Every window has a first largest sample. -/
theorem exists_first_max (s : List Int) (a n : Nat) :
    ∃ m, a ≤ m ∧ m ≤ a + n ∧ (∀ k, a ≤ k → k < m → sample s k < sample s m) ∧
      ∀ k, a ≤ k → k ≤ a + n → sample s k ≤ sample s m := by
  induction n with
  | zero =>
    refine ⟨a, le_refl _, le_refl _, fun k h1 h2 => by omega, ?_⟩
    intro k h1 h2
    have : k = a := by omega
    rw [this]
  | succ n ih =>
    obtain ⟨m, ham, hmb, hfirst, hall⟩ := ih
    by_cases hnew : sample s m < sample s (a + (n + 1))
    · refine ⟨a + (n + 1), by omega, le_refl _, ?_, ?_⟩
      · intro k h1 h2
        exact lt_of_le_of_lt (hall k h1 (by omega)) hnew
      · intro k h1 h2
        rcases Nat.lt_or_ge k (a + (n + 1)) with h | h
        · exact le_of_lt (lt_of_le_of_lt (hall k h1 (by omega)) hnew)
        · have : k = a + (n + 1) := by omega
          rw [this]
    · refine ⟨m, ham, by omega, hfirst, ?_⟩
      intro k h1 h2
      rcases Nat.lt_or_ge k (a + (n + 1)) with h | h
      · exact hall k h1 (by omega)
      · have : k = a + (n + 1) := by omega
        rw [this]
        exact not_lt.mp hnew

/-- The window scan over an in-bounds window none of whose samples is above `INT_MIN` reports
nothing; an empty window, `end < start`, is such a window. -/
theorem findMaxPeakIfExistsFromTo_no_higher {s : List Int} {a b : Nat} (ha : a < s.length)
    (hb : b < s.length) (hall : ∀ k, a ≤ k → k ≤ b → sample s k ≤ INT_MIN) :
    findMaxPeakIfExistsFromTo (a : Int) (b : Int) s = .ok ⟨-1, INT_MIN⟩ := by
  have hrange : ¬ ((a : Int) ≥ (s.length : Int) ∨ (a : Int) < 0 ∨ (b : Int) ≥ (s.length : Int) ∨
      (b : Int) < 0) := by omega
  have hloop : findMaxPeakLoop (readAt s) (b : Int) ((b : Int) + 1 - (a : Int)).toNat (a : Int)
      ⟨-1, INT_MIN⟩ = .ok ⟨-1, INT_MIN⟩ := by
    rcases Nat.lt_or_ge b a with hlt | hge
    · have hfuel : ((b : Int) + 1 - (a : Int)).toNat = 0 := by omega
      have hgt : ¬ ((a : Int) ≤ (b : Int)) := by omega
      rw [hfuel]
      simp only [findMaxPeakLoop, if_neg hgt]
    · have hfuel : ((b : Int) + 1 - (a : Int)).toNat = b + 1 - a := by omega
      obtain ⟨r, hr, hcase⟩ := findMaxPeakLoop_spec s b hb (b + 1 - a) a (b + 1 - a)
        ⟨-1, INT_MIN⟩ (by omega) (le_refl _)
      rw [hfuel, hr]
      rcases hcase with ⟨rfl, -⟩ | ⟨m, ham, hmb, -, hlt, -, -⟩
      · rfl
      · have := hall m ham hmb
        simp only at hlt
        omega
  unfold findMaxPeakIfExistsFromTo findMaxPeakIfExistsFromToOn
  rw [if_neg hrange, hloop]
  rfl

/-- What the window scan can return: the sentinel, or a sample of the window above `INT_MIN`
with its index. -/
theorem findMaxPeakIfExistsFromTo_cases (s : List Int) (a b : Int) :
    ∃ P, findMaxPeakIfExistsFromTo a b s = .ok P ∧
      (P = ⟨-1, INT_MIN⟩ ∨
        ∃ m : Nat, a ≤ (m : Int) ∧ (m : Int) ≤ b ∧ m < s.length ∧ P = ⟨(m : Nat), sample s m⟩ ∧
          INT_MIN < sample s m) := by
  by_cases hrange : a ≥ (s.length : Int) ∨ a < 0 ∨ b ≥ (s.length : Int) ∨ b < 0
  · refine ⟨⟨-1, INT_MIN⟩, ?_, Or.inl rfl⟩
    unfold findMaxPeakIfExistsFromTo findMaxPeakIfExistsFromToOn
    rw [if_pos hrange]
  · obtain ⟨a', rfl⟩ := Int.eq_ofNat_of_zero_le (by omega : 0 ≤ a)
    obtain ⟨b', rfl⟩ := Int.eq_ofNat_of_zero_le (by omega : 0 ≤ b)
    have ha : a' < s.length := by omega
    have hb : b' < s.length := by omega
    rcases Nat.lt_or_ge b' a' with hlt | hge
    · exact ⟨_, findMaxPeakIfExistsFromTo_no_higher ha hb (fun k h1 h2 => by omega), Or.inl rfl⟩
    · obtain ⟨m, ham, hmb, hfirst, hall⟩ := exists_first_max s a' (b' - a')
      have hmb' : m ≤ b' := by omega
      have hall' : ∀ k, a' ≤ k → k ≤ b' → sample s k ≤ sample s m :=
        fun k h1 h2 => hall k h1 (by omega)
      by_cases hmin : INT_MIN < sample s m
      · refine ⟨_, findMaxPeakIfExistsFromTo_first_max ham hmb' hb hmin hfirst hall', ?_⟩
        rcases ite_eq_or_eq
          ((if 0 < m then sample s (m - 1) else INT_MIN) < sample s m ∧
            sample s m > (if m + 1 < s.length then sample s (m + 1) else INT_MIN))
          (⟨(m : Nat), sample s m⟩ : Point) ⟨-1, INT_MIN⟩ with h | h
        · rw [h]
          exact Or.inr ⟨m, by omega, by omega, by omega, rfl, hmin⟩
        · rw [h]
          exact Or.inl rfl
      · refine ⟨_, findMaxPeakIfExistsFromTo_no_higher ha hb ?_, Or.inl rfl⟩
        intro k h1 h2
        exact le_trans (hall' k h1 h2) (not_lt.mp hmin)

/-! ## The exits of `findPeakPosition` -/

/-- The function `findPeakPosition` is its control flow followed by the evaluation of the
`return` statement reached. -/
theorem findPeakPosition_eq_exit (s : List Int) :
    findPeakPosition s = findPeakPositionExit s >>= Exit.run s := by
  unfold findPeakPosition findPeakPositionExit
  split_ifs with hlen
  · rfl
  · simp only []
    cases readAt s ((globalMaxPoint s).index - 1) with
    | error e => rfl
    | ok before =>
      simp only [ok_bind]
      split_ifs with h1 h2
      · cases middleOfSquareWave (globalMaxPoint s).index s errorRange <;> rfl
      · rfl
      · cases findMaxPeakIfExistsFromTo ((globalMaxPoint s).index - errorRange)
          ((globalMaxPoint s).index - 1) s with
        | error e => rfl
        | ok L =>
          cases findMaxPeakIfExistsFromTo ((globalMaxPoint s).index + 1)
            ((globalMaxPoint s).index + errorRange) s with
          | error e => rfl
          | ok R =>
            simp only [ok_bind]
            split_ifs <;> rfl

theorem findPeakPositionExit_at_zero {s : List Int} (hlen : 3 ≤ s.length) (hs : IsIntVector s)
    (hg : IsLastMax s 0) : findPeakPositionExit s = .error .outOfBounds := by
  unfold findPeakPositionExit
  rw [if_neg (by omega)]
  simp only [globalMaxPoint_of_isLastMax hs hg]
  rfl

theorem findPeakPositionExit_flat {s : List Int} {g : Nat} (hlen : 3 ≤ s.length)
    (hs : IsIntVector s) (hg : IsLastMax s g) (hpos : 1 ≤ g)
    (hflat : sample s (g - 1) = sample s g) :
    findPeakPositionExit s =
      (middleOfSquareWave g s errorRange).map (fun middle : Int => Exit.value (middle : ℚ)) := by
  have hr : readAt s ((g : Int) - 1) = .ok (sample s (g - 1)) := by
    have := readAt_of_lt s (g - 1) (by have := hg.1; omega)
    rwa [Nat.cast_sub hpos, Nat.cast_one] at this
  unfold findPeakPositionExit
  rw [if_neg (by omega)]
  simp only [globalMaxPoint_of_isLastMax hs hg, hr, hflat, ok_bind, if_true]
  cases middleOfSquareWave g s errorRange <;> rfl

theorem findPeakPositionExit_boundary {s : List Int} {g : Nat} (hlen : 3 ≤ s.length)
    (hs : IsIntVector s) (hg : IsLastMax s g) (hpos : 1 ≤ g)
    (hflat : sample s (g - 1) ≠ sample s g) (hlast : g = s.length - 1) :
    findPeakPositionExit s = .ok (.value (g : ℚ)) := by
  have hr : readAt s ((g : Int) - 1) = .ok (sample s (g - 1)) := by
    have := readAt_of_lt s (g - 1) (by have := hg.1; omega)
    rwa [Nat.cast_sub hpos, Nat.cast_one] at this
  have hb : (g : Int) = 0 ∨ (g : Int) = (s.length : Int) - 1 := by omega
  unfold findPeakPositionExit
  rw [if_neg (by omega)]
  simp only [globalMaxPoint_of_isLastMax hs hg, hr, ok_bind, if_neg hflat, if_pos hb,
    Int.cast_natCast]

theorem findPeakPositionExit_interior {s : List Int} {g : Nat} {L R : Point}
    (hlen : 3 ≤ s.length) (hs : IsIntVector s) (hg : IsLastMax s g) (hpos : 1 ≤ g)
    (hint : g < s.length - 1) (hflat : sample s (g - 1) ≠ sample s g)
    (hL : findMaxPeakIfExistsFromTo ((g : Int) - 3) ((g : Int) - 1) s = .ok L)
    (hR : findMaxPeakIfExistsFromTo ((g : Int) + 1) ((g : Int) + 3) s = .ok R) :
    findPeakPositionExit s =
      .ok (if L.index = -1 ∧ R.index = -1 then
          .interpolation ((g : Int) - 1) g ((g : Int) + 1)
        else if L.index ≠ -1 ∧ R.index ≠ -1 ∧ L.value = R.value then .value (g : ℚ)
        else .interpolation (if L.value > R.value then L.index else (g : Int) - 1) g
          (if L.value > R.value then (g : Int) + 1 else R.index)) := by
  have hr : readAt s ((g : Int) - 1) = .ok (sample s (g - 1)) := by
    have := readAt_of_lt s (g - 1) (by have := hg.1; omega)
    rwa [Nat.cast_sub hpos, Nat.cast_one] at this
  have hb : ¬ ((g : Int) = 0 ∨ (g : Int) = (s.length : Int) - 1) := by omega
  have hE : errorRange = 3 := rfl
  unfold findPeakPositionExit
  rw [if_neg (by omega)]
  simp only [globalMaxPoint_of_isLastMax hs hg, hr, ok_bind, if_neg hflat, if_neg hb, hE, hL, hR,
    decide_eq_true_eq, Int.cast_natCast]
  split_ifs <;> rfl

/-- With the last maximum at an interior index and no flat top, `findPeakPosition` ends by
returning `g` or by interpolating over in-bounds indices on either side of `g`. -/
theorem findPeakPositionExit_interior_cases {s : List Int} {g : Nat} (hlen : 3 ≤ s.length)
    (hs : IsIntVector s) (hg : IsLastMax s g) (hpos : 1 ≤ g) (hint : g < s.length - 1)
    (hflat : sample s (g - 1) ≠ sample s g) :
    findPeakPositionExit s = .ok (.value (g : ℚ)) ∨
      ∃ l r : Nat, l < g ∧ g < r ∧ r < s.length ∧
        findPeakPositionExit s = .ok (.interpolation (l : Nat) (g : Nat) (r : Nat)) := by
  obtain ⟨L, hL, hLc⟩ := findMaxPeakIfExistsFromTo_cases s ((g : Int) - 3) ((g : Int) - 1)
  obtain ⟨R, hR, hRc⟩ := findMaxPeakIfExistsFromTo_cases s ((g : Int) + 1) ((g : Int) + 3)
  rw [findPeakPositionExit_interior hlen hs hg hpos hint hflat hL hR]
  have e1 : ((g : Int) - 1) = ((g - 1 : Nat) : Int) := by omega
  have e2 : ((g : Int) + 1) = ((g + 1 : Nat) : Int) := by omega
  rcases hLc with rfl | ⟨i, hi1, hi2, hi3, rfl, hiv⟩ <;>
    rcases hRc with rfl | ⟨j, hj1, hj2, hj3, rfl, hjv⟩
  · refine Or.inr ⟨g - 1, g + 1, by omega, by omega, by omega, ?_⟩
    simp only [and_self, if_true, e1, e2]
  · refine Or.inr ⟨g - 1, j, by omega, by omega, hj3, ?_⟩
    have hidx : ((j : Nat) : Int) ≠ -1 := by omega
    have hv : ¬ (INT_MIN > sample s j) := by omega
    simp only [hidx, and_false, if_false, ne_eq, not_true_eq_false, false_and, hv, e1]
  · refine Or.inr ⟨i, g + 1, by omega, by omega, by omega, ?_⟩
    have hidx : ((i : Nat) : Int) ≠ -1 := by omega
    have hv : sample s i > INT_MIN := hiv
    simp only [hidx, false_and, if_false, ne_eq, not_true_eq_false, and_false, hv, if_true, e2]
  · have hi : ((i : Nat) : Int) ≠ -1 := by omega
    have hj : ((j : Nat) : Int) ≠ -1 := by omega
    by_cases heq : sample s i = sample s j
    · refine Or.inl ?_
      simp only [hi, hj, false_and, if_false, ne_eq, not_false_eq_true, true_and, heq, if_true]
    · by_cases hgt : sample s i > sample s j
      · refine Or.inr ⟨i, g + 1, by omega, by omega, by omega, ?_⟩
        simp only [hi, hj, false_and, if_false, ne_eq, not_false_eq_true, true_and, heq, hgt,
          if_true, e2]
      · refine Or.inr ⟨g - 1, j, by omega, by omega, hj3, ?_⟩
        simp only [hi, hj, false_and, if_false, ne_eq, not_false_eq_true, true_and, heq, hgt, e1]

/-- When `findPeakPosition` ends in a call of `simpleInterpolation`, the centre is the last
maximum `g`, which is not a flat top, and the other two indices are in bounds on either side of
it. -/
theorem findPeakPositionExit_interpolation_shape {s : List Int} {l c r : Int}
    (hlen : 3 ≤ s.length) (hs : IsIntVector s)
    (hcall : findPeakPositionExit s = .ok (.interpolation l c r)) :
    ∃ g li ri : Nat, IsLastMax s g ∧ 1 ≤ g ∧ sample s (g - 1) ≠ sample s g ∧
      l = (li : Int) ∧ c = (g : Int) ∧ r = (ri : Int) ∧ li < g ∧ g < ri ∧ ri < s.length := by
  have hne : s ≠ [] := by
    rintro rfl
    simp at hlen
  obtain ⟨g, hg, -⟩ := globalMaxPoint_spec s hne hs
  rcases Nat.eq_zero_or_pos g with rfl | hpos
  · rw [findPeakPositionExit_at_zero hlen hs hg] at hcall
    cases hcall
  by_cases hflat : sample s (g - 1) = sample s g
  · rw [findPeakPositionExit_flat hlen hs hg hpos hflat] at hcall
    cases hm : middleOfSquareWave g s errorRange with
    | error e => rw [hm] at hcall; cases hcall
    | ok middle => rw [hm] at hcall; cases hcall
  rcases Nat.lt_or_ge g (s.length - 1) with hint | hlast
  · rcases findPeakPositionExit_interior_cases hlen hs hg hpos hint hflat with h | h
    · rw [h] at hcall
      cases hcall
    · obtain ⟨li, ri, h1, h2, h3, h⟩ := h
      rw [h] at hcall
      injection hcall with hcall
      injection hcall with e1 e2 e3
      exact ⟨g, li, ri, hg, hpos, hflat, e1.symm, e2.symm, e3.symm, h1, h2, h3⟩
  · have hgl : g = s.length - 1 := by have := hg.1; omega
    rw [findPeakPositionExit_boundary hlen hs hg hpos hflat hgl] at hcall
    cases hcall

/-- The vertex offset when the centre sample is not below the left one and above the right
one. -/
theorem vertex_offset_half {y0 y1 y2 : Int} (h0 : y0 ≤ y1) (h2 : y2 < y1) :
    (y0 : ℚ) - 2 * y1 + y2 < 0 ∧
      -(1 / 2) ≤ ((y0 : ℚ) - y2) / (2 * ((y0 : ℚ) - 2 * y1 + y2)) ∧
      ((y0 : ℚ) - y2) / (2 * ((y0 : ℚ) - 2 * y1 + y2)) ≤ 1 / 2 := by
  have h0' : (y0 : ℚ) ≤ y1 := by exact_mod_cast h0
  have h2' : (y2 : ℚ) < y1 := by exact_mod_cast h2
  have hD : (y0 : ℚ) - 2 * y1 + y2 < 0 := by linarith
  have h2D : 2 * ((y0 : ℚ) - 2 * y1 + y2) < 0 := by linarith
  refine ⟨hD, ?_, ?_⟩
  · rw [le_div_iff_of_neg h2D]; linarith
  · rw [div_le_iff_of_neg h2D]; linarith

/-- With the maximum last taken at index 0 the flat-top check reads the sample at index `-1`. -/
theorem findPeakPosition_at_zero {s : List Int} (hlen : 3 ≤ s.length) (hs : IsIntVector s)
    (hg : IsLastMax s 0) : findPeakPosition s = .error .outOfBounds := by
  rw [findPeakPosition_eq_exit, findPeakPositionExit_at_zero hlen hs hg]
  rfl

/-- Without a flat top, and the last maximum `g` not at index 0, `findPeakPosition` returns a
position, at a distance of at most `1/2` from `g`. -/
theorem findPeakPosition_not_flat_near {s : List Int} {g : Nat} (hlen : 3 ≤ s.length)
    (hs : IsIntVector s) (hg : IsLastMax s g) (hpos : 1 ≤ g)
    (hflat : sample s (g - 1) ≠ sample s g) :
    ∃ q : ℚ, findPeakPosition s = .ok q ∧ |q - (g : ℚ)| ≤ 1 / 2 := by
  rcases Nat.lt_or_ge g (s.length - 1) with hint | hlast
  · rcases findPeakPositionExit_interior_cases hlen hs hg hpos hint hflat with h | h
    · refine ⟨(g : ℚ), ?_, by norm_num⟩
      rw [findPeakPosition_eq_exit, h]
      rfl
    · obtain ⟨l, r, h1, h2, h3, h⟩ := h
      have hy0 : sample s l ≤ sample s g := hg.2.1 l (by omega)
      have hy2 : sample s r < sample s g := hg.2.2 r h3 h2
      obtain ⟨hD, hlo, hhi⟩ := vertex_offset_half hy0 hy2
      refine ⟨(g : ℚ) + ((sample s l : ℚ) - sample s r) /
        (2 * ((sample s l : ℚ) - 2 * sample s g + sample s r)), ?_, ?_⟩
      · rw [findPeakPosition_eq_exit, h]
        simp only [ok_bind, Exit.run]
        exact simpleInterpolation_eq (by omega) hg.1 h3 (ne_of_lt hD)
      · rw [add_sub_cancel_left, abs_le]
        exact ⟨hlo, hhi⟩
  · have hgl : g = s.length - 1 := by have := hg.1; omega
    refine ⟨(g : ℚ), ?_, by norm_num⟩
    rw [findPeakPosition_eq_exit, findPeakPositionExit_boundary hlen hs hg hpos hflat hgl]
    rfl

/-- Every in-bounds index ends a maximal run of equal samples. -/
theorem exists_runStart (s : List Int) (g : Nat) (hg : g < s.length) :
    ∃ e, IsRunEndingAt s e g := by
  have hex : ∀ c, c ≤ g → (∀ i, c ≤ i → i ≤ g → sample s i = sample s g) →
      ∃ e, IsRunEndingAt s e g := by
    intro c
    induction c with
    | zero =>
      intro h0 hrun
      exact ⟨0, h0, hg, fun i _ h1 h2 => hrun i h1 h2, Or.inl rfl⟩
    | succ c ih =>
      intro hc hrun
      by_cases heq : sample s c = sample s g
      · refine ih (by omega) ?_
        intro i h1 h2
        rcases Nat.eq_or_lt_of_le h1 with rfl | h1
        · exact heq
        · exact hrun i h1 h2
      · exact ⟨c + 1, hc, hg, fun i _ h1 h2 => hrun i h1 h2, Or.inr heq⟩
  exact hex g (le_refl _) (fun i h1 h2 => by rw [le_antisymm h2 h1])

/-- The isolated shape: neither scan reports a peak, and the three samples around `g` are
interpolated. -/
theorem findPeakPosition_of_no_reports {s : List Int} {g : Nat} {L R : Point}
    (hlen : 3 ≤ s.length) (hs : IsIntVector s) (hg : IsLastMax s g) (hpos : 1 ≤ g)
    (hint : g < s.length - 1) (hflat : sample s (g - 1) ≠ sample s g)
    (hL : findMaxPeakIfExistsFromTo ((g : Int) - 3) ((g : Int) - 1) s = .ok L)
    (hLi : L.index = -1)
    (hR : findMaxPeakIfExistsFromTo ((g : Int) + 1) ((g : Int) + 3) s = .ok R)
    (hRi : R.index = -1) :
    findPeakPosition s = simpleInterpolation ((g : Int) - 1) g ((g : Int) + 1) s ∧
      simpleInterpolation ((g : Int) - 1) g ((g : Int) + 1) s =
        .ok ((g : ℚ) + ((sample s (g - 1) : ℚ) - sample s (g + 1)) /
          (2 * ((sample s (g - 1) : ℚ) - 2 * sample s g + sample s (g + 1)))) := by
  have h0 : sample s (g - 1) < sample s g :=
    lt_of_le_of_ne (hg.2.1 (g - 1) (by omega)) hflat
  have h2 : sample s (g + 1) < sample s g := hg.2.2 (g + 1) (by omega) (by omega)
  obtain ⟨hD, -, -⟩ := vertex_offset_bounds h0 h2
  have hl : ((g : Int) - 1) = ((g - 1 : Nat) : Int) := by omega
  have hr : ((g : Int) + 1) = ((g + 1 : Nat) : Int) := by omega
  refine ⟨?_, ?_⟩
  · rw [findPeakPosition_eq_exit,
      findPeakPositionExit_interior hlen hs hg hpos hint hflat hL hR, if_pos ⟨hLi, hRi⟩]
    rfl
  · rw [hl, hr, simpleInterpolation_eq (by omega) hg.1 (by omega) (ne_of_lt hD)]

/-! ## The claims -/

/-- C1: a signal with fewer than three samples, the empty one included, makes
`findPeakPosition` fail with the error for a signal that is too small; no position is
returned. -/
theorem findPeakPosition_too_small (s : List Int) (h : s.length < 3) :
    findPeakPosition s = .error .tooSmall := by
  unfold findPeakPosition
  rw [if_pos h]

theorem findPeakPosition_too_small_witness :
    ([7, 9] : List Int).length < 3 ∧ findPeakPosition [7, 9] = .error .tooSmall :=
  ⟨by decide, findPeakPosition_too_small [7, 9] (by decide)⟩

/-- C2, the code at the claim's own example: in `[1,2,3,4,5,6,6,6,5,4,3,2]` the maximum is
last taken at index 7, its run of equal samples is `5..7`, of width 3 and midpoint 6, and
`findPeakPosition` returns 5, the left edge of the run. -/
theorem findPeakPosition_flat_top_example :
    IsLastMax [1, 2, 3, 4, 5, 6, 6, 6, 5, 4, 3, 2] 7 ∧
      IsRunEndingAt [1, 2, 3, 4, 5, 6, 6, 6, 5, 4, 3, 2] 5 7 ∧
      ((7 : Int) - 5) / 2 + 5 = 6 ∧
      middleOfSquareWave 7 [1, 2, 3, 4, 5, 6, 6, 6, 5, 4, 3, 2] errorRange = .ok 5 ∧
      findPeakPosition [1, 2, 3, 4, 5, 6, 6, 6, 5, 4, 3, 2] = .ok 5 :=
  ⟨by decide, by decide, by decide, rfl, rfl⟩

/-- C3 as stated fails: in `[1,5,5,5,5,5,5,2]` the flat top is the run `1..6`, of width
`6 = 2 * errorRange`, and both `middleOfSquareWave` and `findPeakPosition` return 3 instead of
failing. -/
theorem findPeakPosition_flat_top_width_six :
    3 ≤ [1, 5, 5, 5, 5, 5, 5, 2].length ∧
      IsIntVector [1, 5, 5, 5, 5, 5, 5, 2] ∧
      IsLastMax [1, 5, 5, 5, 5, 5, 5, 2] 6 ∧
      IsRunEndingAt [1, 5, 5, 5, 5, 5, 5, 2] 1 6 ∧
      2 * errorRange ≤ (6 : Int) - 1 + 1 ∧
      middleOfSquareWave 6 [1, 5, 5, 5, 5, 5, 5, 2] errorRange = .ok 3 ∧
      findPeakPosition [1, 5, 5, 5, 5, 5, 5, 2] = .ok 3 :=
  ⟨by decide, by decide, by decide, by decide, by decide, rfl, rfl⟩

/-- C3, amended: when the flat top, the run `leftEdge..g` of samples equal to the maximum that
ends at the last occurrence `g` of the maximum, has a width above `2 * errorRange` (7 samples or
more), `findPeakPosition` fails with the error for a square top that is too large; and
`middleOfSquareWave` fails with that error for every `errorRange` for which the width of the run
ending at its right edge is above `2 * errorRange`, the product being an `int`. -/
theorem findPeakPosition_wide_flat_top (s : List Int) (leftEdge g : Nat) (hlen : 3 ≤ s.length)
    (hs : IsIntVector s) (hg : IsLastMax s g) (hrun : IsRunEndingAt s leftEdge g)
    (hwidth : 2 * errorRange < (g : Int) - (leftEdge : Int) + 1) :
    findPeakPosition s = .error .squareTopTooLarge ∧
      ∀ E : Int, INT_MIN ≤ 2 * E → 2 * E < (g : Int) - (leftEdge : Int) + 1 →
        middleOfSquareWave g s E = .error .squareTopTooLarge := by
  have hmid : ∀ E : Int, INT_MIN ≤ 2 * E → 2 * E < (g : Int) - (leftEdge : Int) + 1 →
      middleOfSquareWave g s E = .error .squareTopTooLarge := by
    intro E hlo hE
    have hhi : 2 * E ≤ INT_MAX := by
      have := hs.1
      have := hg.1
      omega
    rw [middleOfSquareWave_run E hrun, wrapInt_of_int hlo hhi, if_pos (by omega)]
  refine ⟨?_, hmid⟩
  have hE : errorRange = 3 := rfl
  have hpos : 1 ≤ g := by omega
  have hflat : sample s (g - 1) = sample s g :=
    hrun.2.2.1 (g - 1) (by have := hg.1; omega) (by omega) (by omega)
  rw [findPeakPosition_flat hlen hs hg hpos hflat, hmid errorRange (by decide) hwidth]
  rfl

theorem findPeakPosition_wide_flat_top_witness :
    findPeakPosition [1, 5, 5, 5, 5, 5, 5, 5, 2] = .error .squareTopTooLarge ∧
      middleOfSquareWave (7 : Nat) [1, 5, 5, 5, 5, 5, 5, 5, 2] 2 = .error .squareTopTooLarge :=
  ⟨(findPeakPosition_wide_flat_top [1, 5, 5, 5, 5, 5, 5, 5, 2] 1 7 (by decide) (by decide)
      (by decide) (by decide) (by decide)).1,
    (findPeakPosition_wide_flat_top [1, 5, 5, 5, 5, 5, 5, 5, 2] 1 7 (by decide) (by decide)
      (by decide) (by decide) (by decide)).2 2 (by decide) (by decide)⟩

/-- C4: when the last occurrence `g` of the maximum is interior and not a flat top, and both
window scans report no qualifying peak (index `-1`), `findPeakPosition` returns, in exact
arithmetic, `g + (y0 - y2) / (2 * (y0 - 2 * y1 + y2))` for the samples `y0, y1, y2` at
`g - 1, g, g + 1`, and this value lies strictly between `g - 1` and `g + 1`. -/
theorem findPeakPosition_isolated (s : List Int) (g : Nat) (L R : Point) (hlen : 3 ≤ s.length)
    (hs : IsIntVector s) (hg : IsLastMax s g) (hpos : 0 < g) (hint : g < s.length - 1)
    (hflat : sample s (g - 1) ≠ sample s g)
    (hL : findMaxPeakIfExistsFromTo ((g : Int) - 3) ((g : Int) - 1) s = .ok L)
    (hLi : L.index = -1)
    (hR : findMaxPeakIfExistsFromTo ((g : Int) + 1) ((g : Int) + 3) s = .ok R)
    (hRi : R.index = -1) :
    findPeakPosition s =
        .ok ((g : ℚ) + ((sample s (g - 1) : ℚ) - sample s (g + 1)) /
          (2 * ((sample s (g - 1) : ℚ) - 2 * sample s g + sample s (g + 1)))) ∧
      (g : ℚ) - 1 < (g : ℚ) + ((sample s (g - 1) : ℚ) - sample s (g + 1)) /
          (2 * ((sample s (g - 1) : ℚ) - 2 * sample s g + sample s (g + 1))) ∧
      (g : ℚ) + ((sample s (g - 1) : ℚ) - sample s (g + 1)) /
          (2 * ((sample s (g - 1) : ℚ) - 2 * sample s g + sample s (g + 1))) < (g : ℚ) + 1 := by
  have h0 : sample s (g - 1) < sample s g :=
    lt_of_le_of_ne (hg.2.1 (g - 1) (by omega)) hflat
  have h2 : sample s (g + 1) < sample s g := hg.2.2 (g + 1) (by omega) (by omega)
  obtain ⟨hD, hlo, hhi⟩ := vertex_offset_bounds h0 h2
  refine ⟨?_, by linarith, by linarith⟩
  have hE : errorRange = 3 := rfl
  rw [findPeakPosition_not_flat hlen hs hg hpos hflat, if_neg (by omega), hE, hL, hR]
  simp only [ok_bind, hLi, hRi, and_self, if_true]
  have hl : ((g : Int) - 1) = ((g - 1 : Nat) : Int) := by omega
  have hr : ((g : Int) + 1) = ((g + 1 : Nat) : Int) := by omega
  rw [hl, hr, simpleInterpolation_eq (by omega) hg.1 (by omega) (ne_of_lt hD)]

theorem findPeakPosition_isolated_witness :
    findPeakPosition [1, 2, 3, 4, 5, 10, 9, 4, 3, 2] = .ok (5 + 1 / 3) := by
  have h := (findPeakPosition_isolated [1, 2, 3, 4, 5, 10, 9, 4, 3, 2] 5 ⟨-1, INT_MIN⟩
    ⟨-1, INT_MIN⟩ (by decide) (by decide) (by decide) (by decide) (by decide) (by decide)
    rfl rfl rfl rfl).1
  rw [h]
  norm_num [sample]

/-- C5: when the last occurrence `g` of the maximum is interior and not a flat top, both window
scans return a qualifying peak (index other than `-1`) and the two reported values are equal,
`findPeakPosition` returns the integer `g`. -/
theorem findPeakPosition_symmetric (s : List Int) (g : Nat) (L R : Point) (hlen : 3 ≤ s.length)
    (hs : IsIntVector s) (hg : IsLastMax s g) (hpos : 0 < g) (hint : g < s.length - 1)
    (hflat : sample s (g - 1) ≠ sample s g)
    (hL : findMaxPeakIfExistsFromTo ((g : Int) - 3) ((g : Int) - 1) s = .ok L)
    (hLi : L.index ≠ -1)
    (hR : findMaxPeakIfExistsFromTo ((g : Int) + 1) ((g : Int) + 3) s = .ok R)
    (hRi : R.index ≠ -1) (hval : L.value = R.value) :
    findPeakPosition s = .ok (g : ℚ) :=
  findPeakPosition_of_equal_reports hlen hs hg hpos hint hflat hL hLi hR hRi hval

theorem findPeakPosition_symmetric_witness :
    findPeakPosition [1, 2, 5, 9, 7, 10, 7, 9, 5, 2] = .ok ((5 : Nat) : ℚ) :=
  findPeakPosition_symmetric [1, 2, 5, 9, 7, 10, 7, 9, 5, 2] 5 ⟨3, 9⟩ ⟨7, 9⟩ (by decide)
    (by decide) (by decide) (by decide) (by decide) (by decide) rfl (by decide) rfl (by decide)
    rfl

/-- C6 as stated fails: in `[1,5,2,8,10,3,5,1]` the last maximum is at the interior index 4
and is not a flat top, index 1 is a peak of height 5 in the left window `1..3`, index 6 is a
peak of height 5 in the right window `5..7`, and `findPeakPosition` returns `4 - 3/14`, not 4:
the largest sample of the left window, 8 at index 3, is not a peak, so the left scan reports
nothing. -/
theorem findPeakPosition_equal_peaks_example :
    3 ≤ [1, 5, 2, 8, 10, 3, 5, 1].length ∧
      IsIntVector [1, 5, 2, 8, 10, 3, 5, 1] ∧
      IsLastMax [1, 5, 2, 8, 10, 3, 5, 1] 4 ∧
      (0 < 4 ∧ 4 < [1, 5, 2, 8, 10, 3, 5, 1].length - 1) ∧
      sample [1, 5, 2, 8, 10, 3, 5, 1] (4 - 1) ≠ sample [1, 5, 2, 8, 10, 3, 5, 1] 4 ∧
      (IsPeak [1, 5, 2, 8, 10, 3, 5, 1] 1 ∧ 4 ≤ 1 + 3 ∧ 1 < 4) ∧
      (IsPeak [1, 5, 2, 8, 10, 3, 5, 1] 6 ∧ 4 < 6 ∧ 6 ≤ 4 + 3) ∧
      sample [1, 5, 2, 8, 10, 3, 5, 1] 1 = sample [1, 5, 2, 8, 10, 3, 5, 1] 6 ∧
      findMaxPeakIfExistsFromTo (4 - 3) (4 - 1) [1, 5, 2, 8, 10, 3, 5, 1] = .ok ⟨-1, INT_MIN⟩ ∧
      findMaxPeakIfExistsFromTo (4 + 1) (4 + 3) [1, 5, 2, 8, 10, 3, 5, 1] = .ok ⟨6, 5⟩ ∧
      findPeakPosition [1, 5, 2, 8, 10, 3, 5, 1] = .ok (4 - 3 / 14) ∧
      findPeakPosition [1, 5, 2, 8, 10, 3, 5, 1] ≠ .ok ((4 : Nat) : ℚ) := by
  have hv : findPeakPosition [1, 5, 2, 8, 10, 3, 5, 1] = .ok (4 - 3 / 14) := by
    with_unfolding_all rfl
  refine ⟨by decide, by decide, by decide, by decide, by decide, by decide, by decide, by decide,
    rfl, rfl, hv, ?_⟩
  rw [hv]
  intro h
  injection h with h
  norm_num at h

/-- C6, amended: when the last occurrence `g` of the maximum is interior and not a flat top,
there is a peak at an index `i` of the left window `g-3..g-1` whose height is the largest sample
of that window, and there is a peak of the same height at an index `j` of the right window
`g+1..g+3` whose height is the largest sample of that window, `findPeakPosition` returns
exactly `g`. -/
theorem findPeakPosition_equal_window_peaks (s : List Int) (g i j : Nat) (hlen : 3 ≤ s.length)
    (hs : IsIntVector s) (hg : IsLastMax s g) (hpos : 0 < g) (hint : g < s.length - 1)
    (hflat : sample s (g - 1) ≠ sample s g)
    (hi : IsPeak s i) (hiw : g ≤ i + 3 ∧ i < g)
    (himax : ∀ k < g, g ≤ k + 3 → sample s k ≤ sample s i)
    (hj : IsPeak s j) (hjw : g < j ∧ j ≤ g + 3)
    (hjmax : ∀ k < s.length, g < k → k ≤ g + 3 → sample s k ≤ sample s j)
    (heq : sample s i = sample s j) :
    findPeakPosition s = .ok (g : ℚ) := by
  have hgi : sample s i ≤ sample s g := hg.2.1 i (by omega)
  have hgj : sample s j ≤ sample s g := hg.2.1 j (by have := hj.2.1; omega)
  have hi1 : i + 1 ≠ g := by
    intro h
    subst h
    have := hi.2.2.2
    omega
  have hj1 : j ≠ g + 1 := by
    intro h
    subst h
    have := hj.2.2.1
    rw [Nat.add_sub_cancel] at this
    omega
  have hi0 := hi.1
  have hjl := hj.2.1
  have e1 : ((g - 3 : Nat) : Int) = (g : Int) - 3 := by omega
  have e2 : ((g - 1 : Nat) : Int) = (g : Int) - 1 := by omega
  have e3 : ((g + 1 : Nat) : Int) = (g : Int) + 1 := by omega
  have e4 : ((g + 3 : Nat) : Int) = (g : Int) + 3 := by omega
  have hL : findMaxPeakIfExistsFromTo ((g : Int) - 3) ((g : Int) - 1) s =
      .ok ⟨(i : Nat), sample s i⟩ := by
    rw [← e1, ← e2]
    refine findMaxPeakIfExistsFromTo_peak hs (by omega) (by omega) (by omega) hi ?_ ?_
    · intro k h1 h2
      have hk : k = i - 1 := by omega
      rw [hk]
      exact hi.2.2.1
    · intro k h1 h2
      exact himax k (by omega) (by omega)
  by_cases hjfirst : ∀ k < j, g < k → sample s k < sample s j
  · -- the right peak is the first largest sample of its window: both scans report a peak
    have hR : findMaxPeakIfExistsFromTo ((g : Int) + 1) ((g : Int) + 3) s =
        .ok ⟨(j : Nat), sample s j⟩ := by
      rw [← e3, ← e4]
      refine findMaxPeakIfExistsFromTo_peak hs (by omega) (by omega) (by omega) hj ?_ ?_
      · intro k h1 h2
        exact hjfirst k h2 (by omega)
      · intro k h1 h2
        exact hjmax k (by omega) (by omega) h2
    exact findPeakPosition_of_equal_reports hlen hs hg hpos hint hflat hL
      (by simp only; omega) hR (by simp only; omega) heq
  · -- the sample at `g + 1` already has the height of the peak at `j = g + 3`: the right scan
    -- reports nothing, and the interpolation over `(i, g, g + 1)` has offset zero
    push_neg at hjfirst
    obtain ⟨k, hkj, hgk, hge⟩ := hjfirst
    have hkle := hjmax k (by omega) hgk (by omega)
    have hpk := hj.2.2.1
    have hk : k = g + 1 := by
      by_contra hne
      have : k = j - 1 := by omega
      rw [this] at hge
      omega
    subst hk
    have hnext : sample s (g + 1) = sample s j := le_antisymm hkle hge
    have hlow : INT_MIN ≤ sample s (j - 1) := (hs.2 _ (sample_mem s (j - 1) (by omega))).1
    have hlt : sample s (g + 1) < sample s g := hg.2.2 (g + 1) (by omega) (by omega)
    have hR : findMaxPeakIfExistsFromTo ((g : Int) + 1) ((g : Int) + 3) s =
        .ok ⟨-1, INT_MIN⟩ := by
      rw [← e3, ← e4]
      refine findMaxPeakIfExistsFromTo_left_higher (m := g + 1) (le_refl _) (by omega) (by omega)
        (by omega) (by omega) ?_ ?_ ?_
      · rw [Nat.add_sub_cancel]
        exact le_of_lt hlt
      · intro k h1 h2
        omega
      · intro k h1 h2
        rw [hnext]
        exact hjmax k (by omega) (by omega) h2
    have hE : errorRange = 3 := rfl
    have hgt : sample s i > INT_MIN := by omega
    have hidx : ((i : Nat) : Int) ≠ -1 := by omega
    rw [findPeakPosition_not_flat hlen hs hg hpos hflat, if_neg (by omega), hE, hL, hR]
    simp only [ok_bind, hidx, false_and, if_false, ne_eq, not_true_eq_false, and_false, hgt,
      if_true]
    rw [e3.symm, simpleInterpolation_eq (by omega) hg.1 (by omega)]
    · have hz : (sample s i : ℚ) - sample s (g + 1) = 0 := by
        rw [heq, hnext]
        ring
      rw [hz, zero_div, add_zero]
    · have h1 : (sample s i : ℚ) = sample s (g + 1) := by rw [heq, hnext]
      have h2 : (sample s (g + 1) : ℚ) < sample s g := by exact_mod_cast hlt
      rw [h1]
      intro h
      linarith

theorem findPeakPosition_equal_window_peaks_witness :
    findPeakPosition [1, 2, 5, 9, 7, 10, 7, 9, 5, 2] = .ok ((5 : Nat) : ℚ) :=
  findPeakPosition_equal_window_peaks [1, 2, 5, 9, 7, 10, 7, 9, 5, 2] 5 3 7 (by decide)
    (by decide) (by decide) (by decide) (by decide) (by decide) (by decide) (by decide)
    (by decide) (by decide) (by decide) (by decide) (by decide)

/-- C7: on a strictly increasing signal of at least three samples `findPeakPosition` returns
the last index, `length - 1`, an integer. -/
theorem findPeakPosition_increasing (s : List Int) (hlen : 3 ≤ s.length) (hs : IsIntVector s)
    (hinc : s.Sorted (· < ·)) :
    findPeakPosition s = .ok (((s.length : Int) - 1 : Int) : ℚ) := by
  have hlt : ∀ i j, i < j → j < s.length → sample s i < sample s j := by
    intro i j hij hj
    have hi : i < s.length := by omega
    have := List.pairwise_iff_getElem.mp hinc i j hi hj hij
    simpa [sample, List.getD_eq_getElem, hi, hj] using this
  have hg : IsLastMax s (s.length - 1) := by
    refine ⟨by omega, ?_, ?_⟩
    · intro i hi
      rcases Nat.lt_or_ge i (s.length - 1) with h | h
      · exact le_of_lt (hlt i _ h (by omega))
      · have : i = s.length - 1 := by omega
        rw [this]
    · intro i hi h
      omega
  have hflat : sample s (s.length - 1 - 1) ≠ sample s (s.length - 1) :=
    ne_of_lt (hlt _ _ (by omega) (by omega))
  have hcast : ((s.length - 1 : Nat) : Int) = (s.length : Int) - 1 := by omega
  rw [findPeakPosition_not_flat hlen hs hg (by omega) hflat, if_pos (Or.inr hcast), hcast]

theorem findPeakPosition_increasing_witness :
    findPeakPosition [1, 2, 3, 4, 5, 6, 7, 8, 9, 10] = .ok (((10 : Int) - 1 : Int) : ℚ) :=
  findPeakPosition_increasing [1, 2, 3, 4, 5, 6, 7, 8, 9, 10] (by decide) (by decide)
    (by decide)

/-- C8, the code at a strictly decreasing signal: in `[10,9,8,7,6,5,4,3,2,1]` the global scan
selects index 0, the flat-top check reads the sample at index `-1`, outside the signal, and
`findPeakPosition` does not return 0. -/
theorem findPeakPosition_decreasing_example :
    globalMaxPoint [10, 9, 8, 7, 6, 5, 4, 3, 2, 1] = ⟨0, 10⟩ ∧
      readAt [10, 9, 8, 7, 6, 5, 4, 3, 2, 1]
        ((globalMaxPoint [10, 9, 8, 7, 6, 5, 4, 3, 2, 1]).index - 1) = .error .outOfBounds ∧
      findPeakPosition [10, 9, 8, 7, 6, 5, 4, 3, 2, 1] = .error .outOfBounds :=
  ⟨rfl, rfl, rfl⟩

/-- C9: for a signal of at least three samples the point recorded by the global scan of
`findPeakPosition` has the largest index at which the signal takes its maximum, and its value is
that maximum. -/
theorem globalMaxPoint_last_maximum (s : List Int) (hlen : 3 ≤ s.length) (hs : IsIntVector s) :
    ∃ g : Nat, (globalMaxPoint s).index = (g : Int) ∧ g < s.length ∧
      sample s g = (globalMaxPoint s).value ∧
      (∀ x ∈ s, x ≤ (globalMaxPoint s).value) ∧
      ∀ i < s.length, sample s i = (globalMaxPoint s).value → i ≤ g := by
  have hne : s ≠ [] := by
    rintro rfl
    simp at hlen
  obtain ⟨g, hg, heq⟩ := globalMaxPoint_spec s hne hs
  refine ⟨g, by rw [heq], hg.1, by rw [heq], ?_, ?_⟩
  · intro x hx
    obtain ⟨i, hi, rfl⟩ := List.getElem_of_mem hx
    have := hg.2.1 i hi
    rw [heq]
    simpa [sample, List.getD_eq_getElem, hi] using this
  · intro i hi hv
    rw [heq] at hv
    by_contra hgt
    have := hg.2.2 i hi (by omega)
    simp only at hv
    omega

theorem globalMaxPoint_last_maximum_witness :
    ∃ g : Nat, (globalMaxPoint [3, 8, 1, 8, 2]).index = (g : Int) ∧ g < [3, 8, 1, 8, 2].length ∧
      sample [3, 8, 1, 8, 2] g = (globalMaxPoint [3, 8, 1, 8, 2]).value ∧
      (∀ x ∈ [3, 8, 1, 8, 2], x ≤ (globalMaxPoint [3, 8, 1, 8, 2]).value) ∧
      ∀ i < [3, 8, 1, 8, 2].length,
        sample [3, 8, 1, 8, 2] i = (globalMaxPoint [3, 8, 1, 8, 2]).value → i ≤ g :=
  globalMaxPoint_last_maximum [3, 8, 1, 8, 2] (by decide) (by decide)

/-- C10: when `start` or `end` is negative or not below the size, `findMaxPeakIfExistsFromTo`
returns the sentinel point `(-1, INT_MIN)`, not an error; and it does so whatever the read
operation of the vector does, also when every read faults: no sample is read. -/
theorem findMaxPeakIfExistsFromTo_out_of_range (s : List Int) (start end_ : Int)
    (h : start < 0 ∨ (s.length : Int) ≤ start ∨ end_ < 0 ∨ (s.length : Int) ≤ end_) :
    findMaxPeakIfExistsFromTo start end_ s = .ok ⟨-1, INT_MIN⟩ ∧
      ∀ rd : Int → Except Fault Int,
        findMaxPeakIfExistsFromToOn s.length rd start end_ = .ok ⟨-1, INT_MIN⟩ := by
  have hrd : ∀ rd : Int → Except Fault Int,
      findMaxPeakIfExistsFromToOn s.length rd start end_ = .ok ⟨-1, INT_MIN⟩ := by
    intro rd
    unfold findMaxPeakIfExistsFromToOn
    rw [if_pos]
    rcases h with h | h | h | h
    · exact Or.inr (Or.inl h)
    · exact Or.inl h
    · exact Or.inr (Or.inr (Or.inr h))
    · exact Or.inr (Or.inr (Or.inl h))
  exact ⟨hrd _, hrd⟩

theorem findMaxPeakIfExistsFromTo_out_of_range_witness :
    findMaxPeakIfExistsFromTo (-1) 1 [5, 1, 10, 3, 5] = .ok ⟨-1, INT_MIN⟩ ∧
      findMaxPeakIfExistsFromToOn [5, 1, 10, 3, 5].length (fun _ => .error .outOfBounds) (-1) 1 =
        .ok ⟨-1, INT_MIN⟩ :=
  ⟨(findMaxPeakIfExistsFromTo_out_of_range [5, 1, 10, 3, 5] (-1) 1 (by decide)).1,
    (findMaxPeakIfExistsFromTo_out_of_range [5, 1, 10, 3, 5] (-1) 1 (by decide)).2 _⟩

/-- C11: for an in-bounds range `start ≤ end` and `i` the first index of the range at which its
largest sample `m` is taken, `findMaxPeakIfExistsFromTo` returns the point `(i, m)` if and only
if `m` is above the sample before `i` (`INT_MIN` when `i = 0`) and above the sample after `i`
(`INT_MIN` when `i` is the last index); in every other case it returns the sentinel
`(-1, INT_MIN)`, whatever peaks there are elsewhere in the range. -/
theorem findMaxPeakIfExistsFromTo_in_range (s : List Int) (start end_ i : Nat)
    (hs : IsIntVector s) (hrange : start ≤ end_ ∧ end_ < s.length) (hi : start ≤ i ∧ i ≤ end_)
    (hmax : ∀ k ≤ end_, start ≤ k → sample s k ≤ sample s i)
    (hfirst : ∀ k < i, start ≤ k → sample s k < sample s i) :
    (findMaxPeakIfExistsFromTo (start : Int) (end_ : Int) s = .ok ⟨(i : Nat), sample s i⟩ ↔
        (if 0 < i then sample s (i - 1) else INT_MIN) < sample s i ∧
          (if i + 1 < s.length then sample s (i + 1) else INT_MIN) < sample s i) ∧
      (¬ ((if 0 < i then sample s (i - 1) else INT_MIN) < sample s i ∧
          (if i + 1 < s.length then sample s (i + 1) else INT_MIN) < sample s i) →
        findMaxPeakIfExistsFromTo (start : Int) (end_ : Int) s = .ok ⟨-1, INT_MIN⟩) := by
  have hne : (⟨-1, INT_MIN⟩ : Point) ≠ ⟨(i : Nat), sample s i⟩ := by
    intro h
    injection h with h1 h2
    omega
  by_cases hmin : INT_MIN < sample s i
  · rw [findMaxPeakIfExistsFromTo_first_max hi.1 hi.2 hrange.2 hmin
      (fun k h1 h2 => hfirst k h2 h1) (fun k h1 h2 => hmax k h2 h1)]
    by_cases hc : (if 0 < i then sample s (i - 1) else INT_MIN) < sample s i ∧
        (if i + 1 < s.length then sample s (i + 1) else INT_MIN) < sample s i
    · rw [if_pos hc]
      exact ⟨⟨fun _ => hc, fun _ => rfl⟩, fun h => absurd hc h⟩
    · rw [if_neg hc]
      refine ⟨⟨fun h => ?_, fun h => absurd h hc⟩, fun _ => rfl⟩
      injection h with h
      exact absurd h hne
  · have hres : findMaxPeakIfExistsFromTo (start : Int) (end_ : Int) s = .ok ⟨-1, INT_MIN⟩ :=
      findMaxPeakIfExistsFromTo_no_higher (by omega) hrange.2
        (fun k h1 h2 => le_trans (hmax k h2 h1) (not_lt.mp hmin))
    have hleft : INT_MIN ≤ (if 0 < i then sample s (i - 1) else INT_MIN) := by
      split_ifs with h0
      · exact (hs.2 _ (sample_mem s (i - 1) (by omega))).1
      · exact le_refl _
    rw [hres]
    refine ⟨⟨fun h => ?_, fun h => ?_⟩, fun _ => rfl⟩
    · injection h with h
      exact absurd h hne
    · have := h.1
      omega

theorem findMaxPeakIfExistsFromTo_in_range_witness :
    IsPeak [1, 5, 2, 8, 10, 3, 5, 1] 1 ∧
      findMaxPeakIfExistsFromTo ((1 : Nat) : Int) ((3 : Nat) : Int) [1, 5, 2, 8, 10, 3, 5, 1] =
        .ok ⟨-1, INT_MIN⟩ :=
  ⟨by decide,
    (findMaxPeakIfExistsFromTo_in_range [1, 5, 2, 8, 10, 3, 5, 1] 1 3 3 (by decide) (by decide)
      (by decide) (by decide) (by decide)).2 (by decide)⟩

/-- C12: when the last occurrence `g` of the maximum is interior and not a flat top, and exactly
one window scan reports a peak, or both do with different values, `findPeakPosition` returns
`simpleInterpolation(L, g, R)` with `(L, R) = (left peak index, g + 1)` when the value reported
on the left is above the one reported on the right and `(g - 1, right peak index)` otherwise;
the value reported for an absent side is below that of every reported peak. -/
theorem findPeakPosition_asymmetric (s : List Int) (g : Nat) (L R : Point)
    (hlen : 3 ≤ s.length) (hs : IsIntVector s) (hg : IsLastMax s g) (hpos : 0 < g)
    (hint : g < s.length - 1) (hflat : sample s (g - 1) ≠ sample s g)
    (hL : findMaxPeakIfExistsFromTo ((g : Int) - 3) ((g : Int) - 1) s = .ok L)
    (hR : findMaxPeakIfExistsFromTo ((g : Int) + 1) ((g : Int) + 3) s = .ok R)
    (hshape : (L.index ≠ -1 ∧ R.index = -1) ∨ (L.index = -1 ∧ R.index ≠ -1) ∨
      (L.index ≠ -1 ∧ R.index ≠ -1 ∧ L.value ≠ R.value)) :
    findPeakPosition s =
        simpleInterpolation (if L.value > R.value then L.index else (g : Int) - 1) g
          (if L.value > R.value then (g : Int) + 1 else R.index) s ∧
      (L.index ≠ -1 → R.index = -1 → L.value > R.value) ∧
      (L.index = -1 → R.index ≠ -1 → ¬ L.value > R.value) := by
  obtain ⟨L', hL', hLc⟩ := findMaxPeakIfExistsFromTo_cases s ((g : Int) - 3) ((g : Int) - 1)
  obtain ⟨R', hR', hRc⟩ := findMaxPeakIfExistsFromTo_cases s ((g : Int) + 1) ((g : Int) + 3)
  rw [hL] at hL'
  rw [hR] at hR'
  injection hL' with hL'
  injection hR' with hR'
  subst hL' hR'
  have hLv : (L.index = -1 → L.value = INT_MIN) ∧ (L.index ≠ -1 → INT_MIN < L.value) := by
    rcases hLc with rfl | ⟨m, -, -, -, rfl, hv⟩
    · exact ⟨fun _ => rfl, fun h => absurd rfl h⟩
    · exact ⟨fun h => by simp only at h; omega, fun _ => hv⟩
  have hRv : (R.index = -1 → R.value = INT_MIN) ∧ (R.index ≠ -1 → INT_MIN < R.value) := by
    rcases hRc with rfl | ⟨m, -, -, -, rfl, hv⟩
    · exact ⟨fun _ => rfl, fun h => absurd rfl h⟩
    · exact ⟨fun h => by simp only at h; omega, fun _ => hv⟩
  refine ⟨?_, ?_, ?_⟩
  · have hno : ¬ (L.index = -1 ∧ R.index = -1) := by
      rintro ⟨h1, h2⟩
      rcases hshape with h | h | h
      · exact h.1 h1
      · exact h.2 h2
      · exact h.1 h1
    have hsame : ¬ (L.index ≠ -1 ∧ R.index ≠ -1 ∧ L.value = R.value) := by
      rintro ⟨h1, h2, h3⟩
      rcases hshape with h | h | h
      · exact h2 h.2
      · exact h1 h.1
      · exact h.2.2 h3
    rw [findPeakPosition_eq_exit,
      findPeakPositionExit_interior hlen hs hg hpos hint hflat hL hR, if_neg hno, if_neg hsame]
    rfl
  · intro h1 h2
    have := hLv.2 h1
    have := hRv.1 h2
    omega
  · intro h1 h2
    have := hLv.1 h1
    have := hRv.2 h2
    omega

theorem findPeakPosition_asymmetric_witness :
    findPeakPosition [1, 2, 3, 5, 3, 10, 8, 9, 8, 1] =
        simpleInterpolation 4 5 7 [1, 2, 3, 5, 3, 10, 8, 9, 8, 1] ∧
      simpleInterpolation 4 5 7 [1, 2, 3, 5, 3, 10, 8, 9, 8, 1] = .ok (5 + 3 / 8) :=
  ⟨(findPeakPosition_asymmetric [1, 2, 3, 5, 3, 10, 8, 9, 8, 1] 5 ⟨3, 5⟩ ⟨7, 9⟩ (by decide)
      (by decide) (by decide) (by decide) (by decide) (by decide) rfl rfl (by decide)).1,
    by with_unfolding_all rfl⟩

/-- C13: for in-bounds indices with samples `y0, y1, y2` and `y0 - 2 * y1 + y2 ≠ 0`,
`simpleInterpolation` returns `centerIndex + (-b / (2 * a))` with `c = y1`, `b = (y2 - y0) / 2`
and `a = y0 - c + b`; the parabola `a x² + b x + c` is the only one through `(-1, y0)`,
`(0, y1)`, `(1, y2)`, its vertex is at the abscissa `-b / (2 * a)`, and the result is the same
for any other left and right indices, in any signal, that carry the same three samples. -/
theorem simpleInterpolation_vertex (s : List Int) (leftIndex centerIndex rightIndex : Nat)
    (y0 y1 y2 : Int) (a b : ℚ) (hl : leftIndex < s.length) (hc : centerIndex < s.length)
    (hr : rightIndex < s.length) (h0 : sample s leftIndex = y0) (h1 : sample s centerIndex = y1)
    (h2 : sample s rightIndex = y2) (hne : y0 - 2 * y1 + y2 ≠ 0)
    (hb : b = ((y2 : ℚ) - y0) / 2) (ha : a = (y0 : ℚ) - y1 + b) :
    simpleInterpolation leftIndex centerIndex rightIndex s =
        .ok ((centerIndex : ℚ) + (-b / (2 * a))) ∧
      (a * (-1) ^ 2 + b * (-1) + y1 = y0 ∧ a * 0 ^ 2 + b * 0 + y1 = y1 ∧
        a * 1 ^ 2 + b * 1 + y1 = y2) ∧
      (∀ a' b' c' : ℚ, a' * (-1) ^ 2 + b' * (-1) + c' = y0 → a' * 0 ^ 2 + b' * 0 + c' = y1 →
        a' * 1 ^ 2 + b' * 1 + c' = y2 → a' = a ∧ b' = b ∧ c' = y1) ∧
      (∀ x : ℚ, a * x ^ 2 + b * x + y1 =
        a * (x - (-b / (2 * a))) ^ 2 + (y1 - b ^ 2 / (4 * a))) ∧
      ∀ (s' : List Int) (l' r' : Nat), l' < s'.length → centerIndex < s'.length →
        r' < s'.length → sample s' l' = y0 → sample s' centerIndex = y1 → sample s' r' = y2 →
        simpleInterpolation l' centerIndex r' s' =
          simpleInterpolation leftIndex centerIndex rightIndex s := by
  have hneq : (y0 : ℚ) - 2 * y1 + y2 ≠ 0 := by exact_mod_cast hne
  have h2a : 2 * a = (y0 : ℚ) - 2 * y1 + y2 := by rw [ha, hb]; ring
  have ha0 : a ≠ 0 := by
    intro h
    rw [h, mul_zero] at h2a
    exact hneq h2a.symm
  have hval : ∀ (s' : List Int) (l' r' : Nat), l' < s'.length → centerIndex < s'.length →
      r' < s'.length → sample s' l' = y0 → sample s' centerIndex = y1 → sample s' r' = y2 →
      simpleInterpolation l' centerIndex r' s' = .ok ((centerIndex : ℚ) + (-b / (2 * a))) := by
    intro s' l' r' hl' hc' hr' e0 e1 e2
    rw [simpleInterpolation_eq hl' hc' hr' (by rw [e0, e1, e2]; exact hneq), e0, e1, e2, h2a, hb]
    congr 2
    field_simp
  refine ⟨hval s leftIndex rightIndex hl hc hr h0 h1 h2, ?_, ?_, ?_, ?_⟩
  · rw [ha, hb]
    refine ⟨by ring, by ring, by ring⟩
  · intro a' b' c' e0 e1 e2
    have hc' : c' = y1 := by linarith
    have hb' : b' = b := by rw [hb]; linarith
    refine ⟨?_, hb', hc'⟩
    rw [ha, hb]
    linarith
  · intro x
    field_simp
    ring
  · intro s' l' r' hl' hc' hr' e0 e1 e2
    rw [hval s' l' r' hl' hc' hr' e0 e1 e2, hval s leftIndex rightIndex hl hc hr h0 h1 h2]

theorem simpleInterpolation_vertex_witness :
    simpleInterpolation ((4 : Nat) : Int) ((5 : Nat) : Int) ((7 : Nat) : Int)
        [1, 2, 3, 5, 3, 10, 8, 9, 8, 1] =
      .ok (((5 : Nat) : ℚ) + (-3 / (2 * (-4)))) :=
  (simpleInterpolation_vertex [1, 2, 3, 5, 3, 10, 8, 9, 8, 1] 4 5 7 3 10 9 (-4) 3 (by decide)
    (by decide) (by decide) rfl rfl rfl (by decide) (by norm_num) (by norm_num)).1

/-- C14: when the last occurrence `g` of the maximum is interior and not a flat top, neither
window scan reports a peak and the samples at `g - 1` and `g + 1` are equal,
`findPeakPosition` returns exactly `g`. -/
theorem findPeakPosition_equal_neighbours (s : List Int) (g : Nat) (L R : Point)
    (hlen : 3 ≤ s.length) (hs : IsIntVector s) (hg : IsLastMax s g) (hpos : 0 < g)
    (hint : g < s.length - 1) (hflat : sample s (g - 1) ≠ sample s g)
    (hL : findMaxPeakIfExistsFromTo ((g : Int) - 3) ((g : Int) - 1) s = .ok L)
    (hLi : L.index = -1)
    (hR : findMaxPeakIfExistsFromTo ((g : Int) + 1) ((g : Int) + 3) s = .ok R)
    (hRi : R.index = -1) (hsym : sample s (g - 1) = sample s (g + 1)) :
    findPeakPosition s = .ok (g : ℚ) := by
  obtain ⟨h1, h2⟩ := findPeakPosition_of_no_reports hlen hs hg hpos hint hflat hL hLi hR hRi
  rw [h1, h2, hsym, sub_self, zero_div, add_zero]

theorem findPeakPosition_equal_neighbours_witness :
    findPeakPosition [1, 2, 3, 4, 5, 6, 5, 4, 3, 2] = .ok ((5 : Nat) : ℚ) :=
  findPeakPosition_equal_neighbours [1, 2, 3, 4, 5, 6, 5, 4, 3, 2] 5 ⟨-1, INT_MIN⟩
    ⟨-1, INT_MIN⟩ (by decide) (by decide) (by decide) (by decide) (by decide) (by decide)
    rfl rfl rfl rfl (by decide)

/-- C15: when the last occurrence `g` of the maximum is interior and not a flat top, the left
window scan reports no peak if `g < errorRange`, whatever the samples before `g`, the right
window scan reports no peak if `g + errorRange > length - 1`, and when both hold
`findPeakPosition` returns the interpolation over `(g - 1, g, g + 1)`. -/
theorem findPeakPosition_short_windows (s : List Int) (g : Nat) (hlen : 3 ≤ s.length)
    (hs : IsIntVector s) (hg : IsLastMax s g) (hpos : 0 < g) (hint : g < s.length - 1)
    (hflat : sample s (g - 1) ≠ sample s g) :
    ((g : Int) < errorRange →
        findMaxPeakIfExistsFromTo ((g : Int) - errorRange) ((g : Int) - 1) s =
          .ok ⟨-1, INT_MIN⟩) ∧
      ((g : Int) + errorRange > (s.length : Int) - 1 →
        findMaxPeakIfExistsFromTo ((g : Int) + 1) ((g : Int) + errorRange) s =
          .ok ⟨-1, INT_MIN⟩) ∧
      ((g : Int) < errorRange → (g : Int) + errorRange > (s.length : Int) - 1 →
        findPeakPosition s = simpleInterpolation ((g : Int) - 1) g ((g : Int) + 1) s ∧
          findPeakPosition s =
            .ok ((g : ℚ) + ((sample s (g - 1) : ℚ) - sample s (g + 1)) /
              (2 * ((sample s (g - 1) : ℚ) - 2 * sample s g + sample s (g + 1))))) := by
  have hE : errorRange = 3 := rfl
  rw [hE]
  have hleft : (g : Int) < 3 →
      findMaxPeakIfExistsFromTo ((g : Int) - 3) ((g : Int) - 1) s = .ok ⟨-1, INT_MIN⟩ := by
    intro h
    unfold findMaxPeakIfExistsFromTo findMaxPeakIfExistsFromToOn
    rw [if_pos (Or.inr (Or.inl (by omega)))]
  have hright : (g : Int) + 3 > (s.length : Int) - 1 →
      findMaxPeakIfExistsFromTo ((g : Int) + 1) ((g : Int) + 3) s = .ok ⟨-1, INT_MIN⟩ := by
    intro h
    unfold findMaxPeakIfExistsFromTo findMaxPeakIfExistsFromToOn
    rw [if_pos (Or.inr (Or.inr (Or.inl (by omega))))]
  refine ⟨hleft, hright, ?_⟩
  intro h1 h2
  obtain ⟨e1, e2⟩ := findPeakPosition_of_no_reports hlen hs hg hpos hint hflat (hleft h1) rfl
    (hright h2) rfl
  exact ⟨e1, by rw [e1, e2]⟩

theorem findPeakPosition_short_windows_witness :
    findMaxPeakIfExistsFromTo (-1) 1 [5, 1, 10, 3, 5] = .ok ⟨-1, INT_MIN⟩ ∧
      findMaxPeakIfExistsFromTo 3 5 [5, 1, 10, 3, 5] = .ok ⟨-1, INT_MIN⟩ ∧
      findPeakPosition [5, 1, 10, 3, 5] = simpleInterpolation 1 2 3 [5, 1, 10, 3, 5] ∧
      findPeakPosition [5, 1, 10, 3, 5] = .ok (2 + 1 / 16) := by
  have h := findPeakPosition_short_windows [5, 1, 10, 3, 5] 2 (by decide) (by decide)
    (by decide) (by decide) (by decide) (by decide)
  refine ⟨h.1 (by decide), h.2.1 (by decide), (h.2.2 (by decide) (by decide)).1, ?_⟩
  rw [(h.2.2 (by decide) (by decide)).2]
  norm_num [sample]

/-- C16: whenever `findPeakPosition`, on a signal of at least three samples, ends in a call
`simpleInterpolation(leftIndex, centerIndex, rightIndex)`, whose result it returns, the
coefficient `a = y0 - y1 + (y2 - y0) / 2` of that call is strictly negative: the divisor `2 * a`
is not zero and the call returns a finite value. -/
theorem findPeakPosition_interpolation_coefficient (s : List Int) (l c r : Int)
    (hlen : 3 ≤ s.length) (hs : IsIntVector s)
    (hcall : findPeakPositionExit s = .ok (.interpolation l c r)) :
    findPeakPosition s = simpleInterpolation l c r s ∧
      ∃ y0 y1 y2 : Int, readAt s l = .ok y0 ∧ readAt s c = .ok y1 ∧ readAt s r = .ok y2 ∧
        (y0 : ℚ) - y1 + ((y2 : ℚ) - y0) / 2 < 0 ∧
        2 * ((y0 : ℚ) - y1 + ((y2 : ℚ) - y0) / 2) ≠ 0 ∧
        simpleInterpolation l c r s =
          .ok ((c : ℚ) + (-(((y2 : ℚ) - y0) / 2) / (2 * ((y0 : ℚ) - y1 + ((y2 : ℚ) - y0) / 2)))) := by
  obtain ⟨g, li, ri, hg, hpos, hflat, rfl, rfl, rfl, h1, h2, h3⟩ :=
    findPeakPositionExit_interpolation_shape hlen hs hcall
  have hy0 : sample s li ≤ sample s g := hg.2.1 li (by omega)
  have hy2 : sample s ri < sample s g := hg.2.2 ri h3 h2
  have hy0' : (sample s li : ℚ) ≤ sample s g := by exact_mod_cast hy0
  have hy2' : (sample s ri : ℚ) < sample s g := by exact_mod_cast hy2
  have ha : (sample s li : ℚ) - sample s g + ((sample s ri : ℚ) - sample s li) / 2 < 0 := by
    linarith
  have h2a : 2 * ((sample s li : ℚ) - sample s g + ((sample s ri : ℚ) - sample s li) / 2) ≠ 0 := by
    intro h
    linarith
  refine ⟨?_, sample s li, sample s g, sample s ri, readAt_of_lt s li (by omega),
    readAt_of_lt s g hg.1, readAt_of_lt s ri h3, ha, h2a, ?_⟩
  · rw [findPeakPosition_eq_exit, hcall]
    rfl
  · unfold simpleInterpolation
    simp only [readAt_of_lt s li (by omega), readAt_of_lt s g hg.1, readAt_of_lt s ri h3, ok_bind,
      if_neg h2a]

theorem findPeakPosition_interpolation_coefficient_witness :
    findPeakPosition [1, 2, 3, 5, 1, 10, 7, 9, 5, 2] =
        simpleInterpolation 4 5 7 [1, 2, 3, 5, 1, 10, 7, 9, 5, 2] ∧
      ∃ y0 y1 y2 : Int, readAt [1, 2, 3, 5, 1, 10, 7, 9, 5, 2] 4 = .ok y0 ∧
        readAt [1, 2, 3, 5, 1, 10, 7, 9, 5, 2] 5 = .ok y1 ∧
        readAt [1, 2, 3, 5, 1, 10, 7, 9, 5, 2] 7 = .ok y2 ∧
        (y0 : ℚ) - y1 + ((y2 : ℚ) - y0) / 2 < 0 ∧
        2 * ((y0 : ℚ) - y1 + ((y2 : ℚ) - y0) / 2) ≠ 0 ∧
        simpleInterpolation 4 5 7 [1, 2, 3, 5, 1, 10, 7, 9, 5, 2] =
          .ok (((5 : Int) : ℚ) +
            (-(((y2 : ℚ) - y0) / 2) / (2 * ((y0 : ℚ) - y1 + ((y2 : ℚ) - y0) / 2)))) :=
  findPeakPosition_interpolation_coefficient [1, 2, 3, 5, 1, 10, 7, 9, 5, 2] 4 5 7 (by decide)
    (by decide) rfl

/-- C17: whenever `findPeakPosition`, on a signal of at least three samples, ends in a call
`simpleInterpolation(L, g, R)`, the centre is the index selected by the global scan and
`0 ≤ L < g < R ≤ length - 1`; the sentinel index `-1` is not among the arguments, and neither
the three reads nor the call end in a read outside the signal. -/
theorem findPeakPosition_interpolation_indices (s : List Int) (l c r : Int)
    (hlen : 3 ≤ s.length) (hs : IsIntVector s)
    (hcall : findPeakPositionExit s = .ok (.interpolation l c r)) :
    c = (globalMaxPoint s).index ∧ 0 ≤ l ∧ l < c ∧ c < r ∧ r ≤ (s.length : Int) - 1 ∧
      l ≠ -1 ∧ r ≠ -1 ∧
      readAt s l ≠ .error .outOfBounds ∧ readAt s c ≠ .error .outOfBounds ∧
      readAt s r ≠ .error .outOfBounds ∧
      simpleInterpolation l c r s ≠ .error .outOfBounds := by
  obtain ⟨g, li, ri, hg, hpos, hflat, rfl, rfl, rfl, h1, h2, h3⟩ :=
    findPeakPositionExit_interpolation_shape hlen hs hcall
  have hy0 : sample s li ≤ sample s g := hg.2.1 li (by omega)
  have hy2 : sample s ri < sample s g := hg.2.2 ri h3 h2
  obtain ⟨hD, -, -⟩ := vertex_offset_half hy0 hy2
  refine ⟨by rw [globalMaxPoint_of_isLastMax hs hg], by omega, by omega, by omega, by omega,
    by omega, by omega, ?_, ?_, ?_, ?_⟩
  · rw [readAt_of_lt s li (by omega)]
    exact fun h => by cases h
  · rw [readAt_of_lt s g hg.1]
    exact fun h => by cases h
  · rw [readAt_of_lt s ri h3]
    exact fun h => by cases h
  · rw [simpleInterpolation_eq (by omega) hg.1 h3 (ne_of_lt hD)]
    exact fun h => by cases h

theorem findPeakPosition_interpolation_indices_witness :
    (5 : Int) = (globalMaxPoint [1, 2, 5, 9, 7, 10, 2, 3, 1, 0]).index ∧ (0 : Int) ≤ 3 ∧
      (3 : Int) < 5 ∧ (5 : Int) < 6 ∧
      (6 : Int) ≤ ([1, 2, 5, 9, 7, 10, 2, 3, 1, 0].length : Int) - 1 ∧
      (3 : Int) ≠ -1 ∧ (6 : Int) ≠ -1 ∧
      readAt [1, 2, 5, 9, 7, 10, 2, 3, 1, 0] 3 ≠ .error .outOfBounds ∧
      readAt [1, 2, 5, 9, 7, 10, 2, 3, 1, 0] 5 ≠ .error .outOfBounds ∧
      readAt [1, 2, 5, 9, 7, 10, 2, 3, 1, 0] 6 ≠ .error .outOfBounds ∧
      simpleInterpolation 3 5 6 [1, 2, 5, 9, 7, 10, 2, 3, 1, 0] ≠ .error .outOfBounds :=
  findPeakPosition_interpolation_indices [1, 2, 5, 9, 7, 10, 2, 3, 1, 0] 3 5 6 (by decide)
    (by decide) rfl

/-- C18: when the last occurrence `g` of the maximum is not at index 0 and is not a flat top,
`findPeakPosition` returns a position, and that position differs from `g` by at most `1/2` in
exact arithmetic, in every shape. -/
theorem findPeakPosition_within_half (s : List Int) (g : Nat) (hlen : 3 ≤ s.length)
    (hs : IsIntVector s) (hg : IsLastMax s g) (hpos : 1 ≤ g)
    (hflat : sample s (g - 1) ≠ sample s g) :
    ∃ q : ℚ, findPeakPosition s = .ok q ∧ |q - (g : ℚ)| ≤ 1 / 2 :=
  findPeakPosition_not_flat_near hlen hs hg hpos hflat

theorem findPeakPosition_within_half_witness :
    ∃ q : ℚ, findPeakPosition [1, 10, 1, 10, 1] = .ok q ∧ |q - ((3 : Nat) : ℚ)| ≤ 1 / 2 :=
  findPeakPosition_within_half [1, 10, 1, 10, 1] 3 (by decide) (by decide) (by decide)
    (by decide) (by decide)

/-- C19: when `findPeakPosition` takes the flat-top path (the last occurrence `g ≥ 1` of the
maximum has an equal sample before it) and returns a value, that value is an integer `r` inside
the plateau: `leftEdge ≤ r ≤ g` for the first index `leftEdge` of the run of maximum samples
ending at `g`, and the sample at `r` is the maximum. -/
theorem findPeakPosition_flat_inside (s : List Int) (leftEdge g : Nat) (q : ℚ)
    (hlen : 3 ≤ s.length) (hs : IsIntVector s) (hg : IsLastMax s g) (hpos : 1 ≤ g)
    (hflat : sample s (g - 1) = sample s g) (hrun : IsRunEndingAt s leftEdge g)
    (hok : findPeakPosition s = .ok q) :
    ∃ r : Nat, q = (r : ℚ) ∧ leftEdge ≤ r ∧ r ≤ g ∧ sample s r = sample s g := by
  have hedge : leftEdge + 1 ≤ g := by
    rcases hrun.2.2.2 with h | h
    · omega
    · by_contra hge
      have : leftEdge = g := by have := hrun.1; omega
      rw [this] at h
      exact h hflat
  have hwrap : wrapInt (2 * errorRange) = 2 * errorRange := rfl
  rw [findPeakPosition_flat hlen hs hg hpos hflat, middleOfSquareWave_run errorRange hrun,
    hwrap] at hok
  by_cases hE : 2 * errorRange ≤ (g : Int) - (leftEdge : Int)
  · rw [if_pos hE] at hok
    cases hok
  · rw [if_neg hE] at hok
    have hdiv : ((g : Int) - ((leftEdge : Int) - 1)).tdiv 2 =
        ((g : Int) - ((leftEdge : Int) - 1)) / 2 :=
      Int.tdiv_eq_ediv (by omega) (by omega)
    rw [hdiv] at hok
    have hq : q = ((((g : Int) - ((leftEdge : Int) - 1)) / 2 + ((leftEdge : Int) - 1) : Int) : ℚ) := by
      injection hok with hok
      exact hok.symm
    obtain ⟨r, hr⟩ := Int.eq_ofNat_of_zero_le
      (by omega : 0 ≤ ((g : Int) - ((leftEdge : Int) - 1)) / 2 + ((leftEdge : Int) - 1))
    have hr1 : leftEdge ≤ r := by omega
    have hr2 : r ≤ g := by omega
    refine ⟨r, ?_, hr1, hr2, hrun.2.2.1 r (by have := hg.1; omega) hr1 hr2⟩
    rw [hq, hr]
    simp

theorem findPeakPosition_flat_inside_witness :
    ∃ r : Nat, (5 : ℚ) = (r : ℚ) ∧ 5 ≤ r ∧ r ≤ 7 ∧
      sample [1, 2, 3, 4, 5, 10, 10, 10, 3, 2] r = sample [1, 2, 3, 4, 5, 10, 10, 10, 3, 2] 7 :=
  findPeakPosition_flat_inside [1, 2, 3, 4, 5, 10, 10, 10, 3, 2] 5 7 5 (by decide) (by decide)
    (by decide) (by decide) (by decide) (by decide) rfl

/-- C20 as stated fails: for `errorRange = 2 ^ 30` the `int` product `2 * errorRange` is
`INT_MIN`, and on `[5,5,5]`, where the run `0..2` ending at index 2 has 3 samples, not more than
`2 * errorRange`, `middleOfSquareWave` raises its error in its first iteration instead of
returning `(2 - (-1)) / 2 + (-1) = 0`. -/
theorem middleOfSquareWave_wrapping_example :
    IsRunEndingAt [5, 5, 5] 0 2 ∧ (0 : Int) ≤ 1073741824 ∧ (1073741824 : Int) ≤ INT_MAX ∧
      ¬ (2 * (1073741824 : Int) < ((2 : Nat) : Int) - ((0 : Nat) : Int) + 1) ∧
      wrapInt (2 * 1073741824) = INT_MIN ∧
      middleOfSquareWave 2 [5, 5, 5] 1073741824 = .error .squareTopTooLarge :=
  ⟨by decide, by decide, by decide, by decide, by decide, rfl⟩

/-- C20, amended: for a run `leftEdge..maxIndex` of samples equal to the one at `maxIndex`, which
is maximal to the left, and every `errorRange ≥ 0` whose double is an `int`
(`2 * errorRange ≤ INT_MAX`), `middleOfSquareWave` raises its error if and only
if the run has more than `2 * errorRange` samples, and otherwise returns
`(maxIndex - p) / 2 + p` for `p = leftEdge - 1`, the index immediately left of the run (`-1`
when the run starts at index 0).  And `findPeakPosition` raises an error, one of its two
`runtime_error`s, if and only if the signal has fewer than 3 samples or the run of maximum
samples ending at the last maximum has more than 6 samples.  The only other way in which
`findPeakPosition` does not return a value is the read at index `-1` when the last maximum is at
index 0, which raises nothing. -/
theorem findPeakPosition_raises_iff (s : List Int) (hs : IsIntVector s) :
    (∀ (leftEdge maxIndex : Nat) (E : Int), 0 ≤ E → 2 * E ≤ INT_MAX →
        IsRunEndingAt s leftEdge maxIndex →
        ((∃ f, middleOfSquareWave maxIndex s E = .error f) ↔
          2 * E < (maxIndex : Int) - (leftEdge : Int) + 1) ∧
        (2 * E < (maxIndex : Int) - (leftEdge : Int) + 1 →
          middleOfSquareWave maxIndex s E = .error .squareTopTooLarge) ∧
        (¬ 2 * E < (maxIndex : Int) - (leftEdge : Int) + 1 →
          middleOfSquareWave maxIndex s E =
            .ok (((maxIndex : Int) - ((leftEdge : Int) - 1)) / 2 + ((leftEdge : Int) - 1)))) ∧
      ((findPeakPosition s = .error .tooSmall ∨ findPeakPosition s = .error .squareTopTooLarge) ↔
        (s.length < 3 ∨ ∃ leftEdge g : Nat, IsLastMax s g ∧ IsRunEndingAt s leftEdge g ∧
          6 < (g : Int) - (leftEdge : Int) + 1)) ∧
      ∀ f, findPeakPosition s = .error f →
        f = .tooSmall ∨ f = .squareTopTooLarge ∨ (f = .outOfBounds ∧ IsLastMax s 0) := by
  have hmid : ∀ (leftEdge maxIndex : Nat) (E : Int), 0 ≤ E → 2 * E ≤ INT_MAX →
      IsRunEndingAt s leftEdge maxIndex →
      (2 * E < (maxIndex : Int) - (leftEdge : Int) + 1 →
        middleOfSquareWave maxIndex s E = .error .squareTopTooLarge) ∧
      (¬ 2 * E < (maxIndex : Int) - (leftEdge : Int) + 1 →
        middleOfSquareWave maxIndex s E =
          .ok (((maxIndex : Int) - ((leftEdge : Int) - 1)) / 2 + ((leftEdge : Int) - 1))) := by
    intro e g E hE0 hE1 hrun
    have hdiv : ((g : Int) - ((e : Int) - 1)).tdiv 2 = ((g : Int) - ((e : Int) - 1)) / 2 :=
      Int.tdiv_eq_ediv (by have := hrun.1; omega) (by omega)
    have hlo : INT_MIN ≤ 2 * E := by
      unfold INT_MIN
      omega
    rw [middleOfSquareWave_run E hrun, wrapInt_of_int hlo hE1, hdiv]
    exact ⟨fun h => by rw [if_pos (by omega)], fun h => by rw [if_neg (by omega)]⟩
  have hE : errorRange = 3 := rfl
  have hsmall : s.length < 3 → findPeakPosition s = .error .tooSmall := by
    intro hlen
    unfold findPeakPosition
    rw [if_pos hlen]
  -- the outcome for a signal of three samples or more, by the place of the last maximum
  have hcases : 3 ≤ s.length → ∀ leftEdge g : Nat, IsLastMax s g → IsRunEndingAt s leftEdge g →
      (g = 0 ∧ findPeakPosition s = .error .outOfBounds) ∨
      (6 < (g : Int) - (leftEdge : Int) + 1 ∧
        findPeakPosition s = .error .squareTopTooLarge) ∨
      (¬ 6 < (g : Int) - (leftEdge : Int) + 1 ∧ ∃ q, findPeakPosition s = .ok q) := by
    intro hlen e g hg hrun
    rcases Nat.eq_zero_or_pos g with rfl | hpos
    · exact Or.inl ⟨rfl, findPeakPosition_at_zero hlen hs hg⟩
    · by_cases hflat : sample s (g - 1) = sample s g
      · by_cases hw : 6 < (g : Int) - (e : Int) + 1
        · refine Or.inr (Or.inl ⟨hw, ?_⟩)
          rw [findPeakPosition_flat hlen hs hg hpos hflat,
            (hmid e g errorRange (by decide) (by decide) hrun).1 (by omega)]
          rfl
        · refine Or.inr (Or.inr ⟨hw,
            ((((g : Int) - ((e : Int) - 1)) / 2 + ((e : Int) - 1) : Int) : ℚ), ?_⟩)
          rw [findPeakPosition_flat hlen hs hg hpos hflat,
            (hmid e g errorRange (by decide) (by decide) hrun).2 (by omega)]
          rfl
      · have hw : ¬ 6 < (g : Int) - (e : Int) + 1 := by
          have hge : e = g := by
            by_contra hne
            have := hrun.1
            exact hflat (hrun.2.2.1 (g - 1) (by have := hg.1; omega) (by omega) (by omega))
          omega
        obtain ⟨q, hq, -⟩ := findPeakPosition_not_flat_near hlen hs hg hpos hflat
        exact Or.inr (Or.inr ⟨hw, q, hq⟩)
  have hexists : 3 ≤ s.length → ∃ leftEdge g : Nat, IsLastMax s g ∧ IsRunEndingAt s leftEdge g := by
    intro hlen
    have hne : s ≠ [] := by
      rintro rfl
      simp at hlen
    obtain ⟨g, hg, -⟩ := globalMaxPoint_spec s hne hs
    obtain ⟨e, hrun⟩ := exists_runStart s g hg.1
    exact ⟨e, g, hg, hrun⟩
  refine ⟨?_, ⟨?_, ?_⟩, ?_⟩
  · intro e g E hE0 hE1 hrun
    obtain ⟨h1, h2⟩ := hmid e g E hE0 hE1 hrun
    refine ⟨⟨?_, fun h => ⟨_, h1 h⟩⟩, h1, h2⟩
    rintro ⟨f, hf⟩
    by_contra hno
    rw [h2 hno] at hf
    cases hf
  · intro hraise
    rcases Nat.lt_or_ge s.length 3 with hlen | hlen
    · exact Or.inl hlen
    · obtain ⟨e, g, hg, hrun⟩ := hexists hlen
      rcases hcases hlen e g hg hrun with ⟨-, h⟩ | ⟨hw, -⟩ | ⟨-, q, h⟩
      · rw [h] at hraise
        rcases hraise with h' | h' <;> cases h'
      · exact Or.inr ⟨e, g, hg, hrun, hw⟩
      · rw [h] at hraise
        rcases hraise with h' | h' <;> cases h'
  · rintro (hlen | ⟨e, g, hg, hrun, hw⟩)
    · exact Or.inl (hsmall hlen)
    · rcases Nat.lt_or_ge s.length 3 with hlen | hlen
      · exact Or.inl (hsmall hlen)
      · rcases hcases hlen e g hg hrun with ⟨h0, -⟩ | ⟨-, h⟩ | ⟨hno, -⟩
        · have := hrun.1
          omega
        · exact Or.inr h
        · exact absurd hw hno
  · intro f hf
    rcases Nat.lt_or_ge s.length 3 with hlen | hlen
    · rw [hsmall hlen] at hf
      injection hf with hf
      exact Or.inl hf.symm
    · obtain ⟨e, g, hg, hrun⟩ := hexists hlen
      rcases hcases hlen e g hg hrun with ⟨h0, h⟩ | ⟨-, h⟩ | ⟨-, q, h⟩
      · rw [h] at hf
        injection hf with hf
        subst h0
        exact Or.inr (Or.inr ⟨hf.symm, hg⟩)
      · rw [h] at hf
        injection hf with hf
        exact Or.inr (Or.inl hf.symm)
      · rw [h] at hf
        cases hf

theorem findPeakPosition_raises_iff_witness :
    middleOfSquareWave (7 : Nat) [4, 9, 9, 9, 9, 9, 9, 9, 3] 3 = .error .squareTopTooLarge ∧
      middleOfSquareWave (7 : Nat) [4, 9, 9, 9, 9, 9, 9, 9, 3] 4 =
        .ok ((((7 : Nat) : Int) - (((1 : Nat) : Int) - 1)) / 2 + (((1 : Nat) : Int) - 1)) ∧
      ((findPeakPosition [4, 9, 9, 9, 9, 9, 9, 9, 3] = .error .tooSmall ∨
          findPeakPosition [4, 9, 9, 9, 9, 9, 9, 9, 3] = .error .squareTopTooLarge) ↔
        ([4, 9, 9, 9, 9, 9, 9, 9, 3].length < 3 ∨
          ∃ leftEdge g : Nat, IsLastMax [4, 9, 9, 9, 9, 9, 9, 9, 3] g ∧
            IsRunEndingAt [4, 9, 9, 9, 9, 9, 9, 9, 3] leftEdge g ∧
            6 < (g : Int) - (leftEdge : Int) + 1)) :=
  ⟨((findPeakPosition_raises_iff [4, 9, 9, 9, 9, 9, 9, 9, 3] (by decide)).1 1 7 3 (by decide)
      (by decide) (by decide)).2.1 (by decide),
    ((findPeakPosition_raises_iff [4, 9, 9, 9, 9, 9, 9, 9, 3] (by decide)).1 1 7 4 (by decide)
      (by decide) (by decide)).2.2 (by decide),
    (findPeakPosition_raises_iff [4, 9, 9, 9, 9, 9, 9, 9, 3] (by decide)).2.1⟩

end Arious
